import Mathlib

/-!
Verification of the inverted-index program in `final_task.py`.

The program keeps an inverted index as a Python `dict` mapping a term
(a string) to the list of document identifiers in which the term occurs.
Python dicts preserve insertion order and have unique keys, so the dict is
embedded as an insertion-ordered association list `List (String × α)`
together with the dict primitives the program uses (`in`, subscript read,
subscript write).  Machine integers do not occur (Python ints are
unbounded), so document identifiers are `Int`.

`InvertedIndex.dump` / `InvertedIndex.load` call `json.dump` / `json.load`.
Both are embedded at the level of the file contents: the encoder mirrors
`json.dump` with its default options (separators `", "` and `": "`,
`ensure_ascii=True`), and the decoder is the strict recursive-descent JSON
reader of `json.load` (whitespace as in the JSON spec, string escapes
including `\uXXXX` and surrogate pairs, strict rejection of raw control
characters, the full number regex with fraction and exponent, the
`NaN`/`Infinity`/`-Infinity` constants, last-wins duplicate object
keys).  `json.load` returns whatever JSON value the file holds; the class
constructor stores it without any shape validation, which the embedding
keeps by letting the loaded index hold an arbitrary `Json` value.
-/

/-! ## Python dict primitives (insertion-ordered association list) -/

/-- Python `k in d` for a dict. -/
def containsKey {α : Type} : List (String × α) → String → Bool
  | [], _ => false
  | (k', _) :: rest, k => k' = k || containsKey rest k

/-- Python `d[k]` read access, `none` when the key is missing (`KeyError`). -/
def dictFind? {α : Type} : List (String × α) → String → Option α
  | [], _ => none
  | (k', v) :: rest, k => if k' = k then some v else dictFind? rest k

/-- Python `d[k] = v`: overwrite in place keeping the key's position,
append at the end when the key is new. -/
def pyDictInsert {α : Type} : List (String × α) → String → α → List (String × α)
  | [], k, v => [(k, v)]
  | (k', v') :: rest, k, v =>
    if k' = k then (k, v) :: rest else (k', v') :: pyDictInsert rest k v

/-- The posting list stored under `w`, `[]` when `w` is absent.  Used to
state the query/build contracts. -/
def lookupList (d : List (String × List Int)) (w : String) : List Int :=
  (dictFind? d w).getD []

/-! ## Tokenizer: the inline `text.lower().split()` of `build_inverted_index` -/

/-- Whitespace ranges of Python `str.split()` with no separator (the
code points `c` with `chr(c).isspace()`, CPython 3.11 / Unicode 14.0). -/
def pySpaceRanges : List (Nat × Nat) :=
  [(9, 13), (28, 32), (133, 133), (160, 160), (5760, 5760), (8192, 8202),
   (8232, 8233), (8239, 8239), (8287, 8287), (12288, 12288)]

/-- Membership in a sorted list of disjoint closed ranges. -/
def rangesContain (n : Nat) : List (Nat × Nat) → Bool
  | [] => false
  | (s, e) :: rest => if n < s then false else if n ≤ e then true else rangesContain n rest

/-- Whitespace for Python `str.split()` with no separator argument. -/
def isPySpace (c : Char) : Bool := rangesContain c.toNat pySpaceRanges

/-- The simple lowercase mapping of CPython's `str.lower` (CPython
3.11 / Unicode 14.0), compressed into runs: `(start, stop, step, delta)`
maps every code point `start + k * step ≤ stop` to itself plus `delta`.
Extracted from and checked exhaustively against `str.lower` on every
code point; the one multi-character mapping (U+0130) and the one
context-sensitive mapping (U+03A3, final sigma) are handled separately
in `pyLowerChar` and `pyLowerAux`. -/
def lowerRuns : List (Nat × Nat × Nat × Int) := [
  (65, 90, 1, 32), (192, 214, 1, 32), (216, 222, 1, 32),
  (256, 302, 2, 1), (306, 310, 2, 1), (313, 327, 2, 1),
  (330, 374, 2, 1), (376, 376, 1, -121), (377, 381, 2, 1),
  (385, 385, 1, 210), (386, 388, 2, 1), (390, 390, 1, 206),
  (391, 391, 1, 1), (393, 394, 1, 205), (395, 395, 1, 1),
  (398, 398, 1, 79), (399, 399, 1, 202), (400, 400, 1, 203),
  (401, 401, 1, 1), (403, 403, 1, 205), (404, 404, 1, 207),
  (406, 406, 1, 211), (407, 407, 1, 209), (408, 408, 1, 1),
  (412, 412, 1, 211), (413, 413, 1, 213), (415, 415, 1, 214),
  (416, 420, 2, 1), (422, 422, 1, 218), (423, 423, 1, 1),
  (425, 425, 1, 218), (428, 428, 1, 1), (430, 430, 1, 218),
  (431, 431, 1, 1), (433, 434, 1, 217), (435, 437, 2, 1),
  (439, 439, 1, 219), (440, 440, 1, 1), (444, 444, 1, 1),
  (452, 452, 1, 2), (453, 453, 1, 1), (455, 455, 1, 2),
  (456, 456, 1, 1), (458, 458, 1, 2), (459, 475, 2, 1),
  (478, 494, 2, 1), (497, 497, 1, 2), (498, 500, 2, 1),
  (502, 502, 1, -97), (503, 503, 1, -56), (504, 542, 2, 1),
  (544, 544, 1, -130), (546, 562, 2, 1), (570, 570, 1, 10795),
  (571, 571, 1, 1), (573, 573, 1, -163), (574, 574, 1, 10792),
  (577, 577, 1, 1), (579, 579, 1, -195), (580, 580, 1, 69),
  (581, 581, 1, 71), (582, 590, 2, 1), (880, 882, 2, 1),
  (886, 886, 1, 1), (895, 895, 1, 116), (902, 902, 1, 38),
  (904, 906, 1, 37), (908, 908, 1, 64), (910, 911, 1, 63),
  (913, 929, 1, 32), (931, 939, 1, 32), (975, 975, 1, 8),
  (984, 1006, 2, 1), (1012, 1012, 1, -60), (1015, 1015, 1, 1),
  (1017, 1017, 1, -7), (1018, 1018, 1, 1), (1021, 1023, 1, -130),
  (1024, 1039, 1, 80), (1040, 1071, 1, 32), (1120, 1152, 2, 1),
  (1162, 1214, 2, 1), (1216, 1216, 1, 15), (1217, 1229, 2, 1),
  (1232, 1326, 2, 1), (1329, 1366, 1, 48), (4256, 4293, 1, 7264),
  (4295, 4295, 1, 7264), (4301, 4301, 1, 7264), (5024, 5103, 1, 38864),
  (5104, 5109, 1, 8), (7312, 7354, 1, -3008), (7357, 7359, 1, -3008),
  (7680, 7828, 2, 1), (7838, 7838, 1, -7615), (7840, 7934, 2, 1),
  (7944, 7951, 1, -8), (7960, 7965, 1, -8), (7976, 7983, 1, -8),
  (7992, 7999, 1, -8), (8008, 8013, 1, -8), (8025, 8031, 2, -8),
  (8040, 8047, 1, -8), (8072, 8079, 1, -8), (8088, 8095, 1, -8),
  (8104, 8111, 1, -8), (8120, 8121, 1, -8), (8122, 8123, 1, -74),
  (8124, 8124, 1, -9), (8136, 8139, 1, -86), (8140, 8140, 1, -9),
  (8152, 8153, 1, -8), (8154, 8155, 1, -100), (8168, 8169, 1, -8),
  (8170, 8171, 1, -112), (8172, 8172, 1, -7), (8184, 8185, 1, -128),
  (8186, 8187, 1, -126), (8188, 8188, 1, -9), (8486, 8486, 1, -7517),
  (8490, 8490, 1, -8383), (8491, 8491, 1, -8262), (8498, 8498, 1, 28),
  (8544, 8559, 1, 16), (8579, 8579, 1, 1), (9398, 9423, 1, 26),
  (11264, 11311, 1, 48), (11360, 11360, 1, 1), (11362, 11362, 1, -10743),
  (11363, 11363, 1, -3814), (11364, 11364, 1, -10727), (11367, 11371, 2, 1),
  (11373, 11373, 1, -10780), (11374, 11374, 1, -10749), (11375, 11375, 1, -10783),
  (11376, 11376, 1, -10782), (11378, 11378, 1, 1), (11381, 11381, 1, 1),
  (11390, 11391, 1, -10815), (11392, 11490, 2, 1), (11499, 11501, 2, 1),
  (11506, 11506, 1, 1), (42560, 42604, 2, 1), (42624, 42650, 2, 1),
  (42786, 42798, 2, 1), (42802, 42862, 2, 1), (42873, 42875, 2, 1),
  (42877, 42877, 1, -35332), (42878, 42886, 2, 1), (42891, 42891, 1, 1),
  (42893, 42893, 1, -42280), (42896, 42898, 2, 1), (42902, 42920, 2, 1),
  (42922, 42922, 1, -42308), (42923, 42923, 1, -42319), (42924, 42924, 1, -42315),
  (42925, 42925, 1, -42305), (42926, 42926, 1, -42308), (42928, 42928, 1, -42258),
  (42929, 42929, 1, -42282), (42930, 42930, 1, -42261), (42931, 42931, 1, 928),
  (42932, 42946, 2, 1), (42948, 42948, 1, -48), (42949, 42949, 1, -42307),
  (42950, 42950, 1, -35384), (42951, 42953, 2, 1), (42960, 42960, 1, 1),
  (42966, 42968, 2, 1), (42997, 42997, 1, 1), (65313, 65338, 1, 32),
  (66560, 66599, 1, 40), (66736, 66771, 1, 40), (66928, 66938, 1, 39),
  (66940, 66954, 1, 39), (66956, 66962, 1, 39), (66964, 66965, 1, 39),
  (68736, 68786, 1, 64), (71840, 71871, 1, 32), (93760, 93791, 1, 32),
  (125184, 125217, 1, 34)
]

/-- Look `n` up in the sorted run list. -/
def runDelta (n : Nat) : List (Nat × Nat × Nat × Int) → Option Int
  | [] => none
  | (s, e, st, d) :: rest =>
    if n < s then none
    else if n ≤ e && (n - s) % st == 0 then some d
    else runDelta n rest

/-- The `Cased` code points (CPython's `_PyUnicode_IsCased`, used by the
final-sigma rule of `str.lower`); extracted from and checked
exhaustively against CPython. -/
def casedRanges : List (Nat × Nat) := [
  (65, 90), (97, 122), (170, 170), (181, 181), (186, 186), (192, 214),
  (216, 246), (248, 442), (444, 447), (452, 659), (661, 687), (880, 883),
  (886, 887), (891, 893), (895, 895), (902, 902), (904, 906), (908, 908),
  (910, 929), (931, 1013), (1015, 1153), (1162, 1327), (1329, 1366), (1376, 1416),
  (4256, 4293), (4295, 4295), (4301, 4301), (4304, 4346), (4349, 4351), (5024, 5109),
  (5112, 5117), (7296, 7304), (7312, 7354), (7357, 7359), (7424, 7467), (7531, 7543),
  (7545, 7578), (7680, 7957), (7960, 7965), (7968, 8005), (8008, 8013), (8016, 8023),
  (8025, 8025), (8027, 8027), (8029, 8029), (8031, 8061), (8064, 8116), (8118, 8124),
  (8126, 8126), (8130, 8132), (8134, 8140), (8144, 8147), (8150, 8155), (8160, 8172),
  (8178, 8180), (8182, 8188), (8450, 8450), (8455, 8455), (8458, 8467), (8469, 8469),
  (8473, 8477), (8484, 8484), (8486, 8486), (8488, 8488), (8490, 8493), (8495, 8500),
  (8505, 8505), (8508, 8511), (8517, 8521), (8526, 8526), (8544, 8575), (8579, 8580),
  (9398, 9449), (11264, 11387), (11390, 11492), (11499, 11502), (11506, 11507), (11520, 11557),
  (11559, 11559), (11565, 11565), (42560, 42605), (42624, 42651), (42786, 42863), (42865, 42887),
  (42891, 42894), (42896, 42954), (42960, 42961), (42963, 42963), (42965, 42969), (42997, 42998),
  (43002, 43002), (43824, 43866), (43872, 43880), (43888, 43967), (64256, 64262), (64275, 64279),
  (65313, 65338), (65345, 65370), (66560, 66639), (66736, 66771), (66776, 66811), (66928, 66938),
  (66940, 66954), (66956, 66962), (66964, 66965), (66967, 66977), (66979, 66993), (66995, 67001),
  (67003, 67004), (68736, 68786), (68800, 68850), (71840, 71903), (93760, 93823), (119808, 119892),
  (119894, 119964), (119966, 119967), (119970, 119970), (119973, 119974), (119977, 119980), (119982, 119993),
  (119995, 119995), (119997, 120003), (120005, 120069), (120071, 120074), (120077, 120084), (120086, 120092),
  (120094, 120121), (120123, 120126), (120128, 120132), (120134, 120134), (120138, 120144), (120146, 120485),
  (120488, 120512), (120514, 120538), (120540, 120570), (120572, 120596), (120598, 120628), (120630, 120654),
  (120656, 120686), (120688, 120712), (120714, 120744), (120746, 120770), (120772, 120779), (122624, 122633),
  (122635, 122654), (125184, 125251), (127280, 127305), (127312, 127337), (127344, 127369)
]

/-- The `Case_Ignorable` code points (CPython's
`_PyUnicode_IsCaseIgnorable`); extracted from and checked exhaustively
against CPython. -/
def caseIgnorableRanges : List (Nat × Nat) := [
  (39, 39), (46, 46), (58, 58), (94, 94), (96, 96), (168, 168),
  (173, 173), (175, 175), (180, 180), (183, 184), (688, 879), (884, 885),
  (890, 890), (900, 901), (903, 903), (1155, 1161), (1369, 1369), (1375, 1375),
  (1425, 1469), (1471, 1471), (1473, 1474), (1476, 1477), (1479, 1479), (1524, 1524),
  (1536, 1541), (1552, 1562), (1564, 1564), (1600, 1600), (1611, 1631), (1648, 1648),
  (1750, 1757), (1759, 1768), (1770, 1773), (1807, 1807), (1809, 1809), (1840, 1866),
  (1958, 1968), (2027, 2037), (2042, 2042), (2045, 2045), (2070, 2093), (2137, 2139),
  (2184, 2184), (2192, 2193), (2200, 2207), (2249, 2306), (2362, 2362), (2364, 2364),
  (2369, 2376), (2381, 2381), (2385, 2391), (2402, 2403), (2417, 2417), (2433, 2433),
  (2492, 2492), (2497, 2500), (2509, 2509), (2530, 2531), (2558, 2558), (2561, 2562),
  (2620, 2620), (2625, 2626), (2631, 2632), (2635, 2637), (2641, 2641), (2672, 2673),
  (2677, 2677), (2689, 2690), (2748, 2748), (2753, 2757), (2759, 2760), (2765, 2765),
  (2786, 2787), (2810, 2815), (2817, 2817), (2876, 2876), (2879, 2879), (2881, 2884),
  (2893, 2893), (2901, 2902), (2914, 2915), (2946, 2946), (3008, 3008), (3021, 3021),
  (3072, 3072), (3076, 3076), (3132, 3132), (3134, 3136), (3142, 3144), (3146, 3149),
  (3157, 3158), (3170, 3171), (3201, 3201), (3260, 3260), (3263, 3263), (3270, 3270),
  (3276, 3277), (3298, 3299), (3328, 3329), (3387, 3388), (3393, 3396), (3405, 3405),
  (3426, 3427), (3457, 3457), (3530, 3530), (3538, 3540), (3542, 3542), (3633, 3633),
  (3636, 3642), (3654, 3662), (3761, 3761), (3764, 3772), (3782, 3782), (3784, 3789),
  (3864, 3865), (3893, 3893), (3895, 3895), (3897, 3897), (3953, 3966), (3968, 3972),
  (3974, 3975), (3981, 3991), (3993, 4028), (4038, 4038), (4141, 4144), (4146, 4151),
  (4153, 4154), (4157, 4158), (4184, 4185), (4190, 4192), (4209, 4212), (4226, 4226),
  (4229, 4230), (4237, 4237), (4253, 4253), (4348, 4348), (4957, 4959), (5906, 5908),
  (5938, 5939), (5970, 5971), (6002, 6003), (6068, 6069), (6071, 6077), (6086, 6086),
  (6089, 6099), (6103, 6103), (6109, 6109), (6155, 6159), (6211, 6211), (6277, 6278),
  (6313, 6313), (6432, 6434), (6439, 6440), (6450, 6450), (6457, 6459), (6679, 6680),
  (6683, 6683), (6742, 6742), (6744, 6750), (6752, 6752), (6754, 6754), (6757, 6764),
  (6771, 6780), (6783, 6783), (6823, 6823), (6832, 6862), (6912, 6915), (6964, 6964),
  (6966, 6970), (6972, 6972), (6978, 6978), (7019, 7027), (7040, 7041), (7074, 7077),
  (7080, 7081), (7083, 7085), (7142, 7142), (7144, 7145), (7149, 7149), (7151, 7153),
  (7212, 7219), (7222, 7223), (7288, 7293), (7376, 7378), (7380, 7392), (7394, 7400),
  (7405, 7405), (7412, 7412), (7416, 7417), (7468, 7530), (7544, 7544), (7579, 7679),
  (8125, 8125), (8127, 8129), (8141, 8143), (8157, 8159), (8173, 8175), (8189, 8190),
  (8203, 8207), (8216, 8217), (8228, 8228), (8231, 8231), (8234, 8238), (8288, 8292),
  (8294, 8303), (8305, 8305), (8319, 8319), (8336, 8348), (8400, 8432), (11388, 11389),
  (11503, 11505), (11631, 11631), (11647, 11647), (11744, 11775), (11823, 11823), (12293, 12293),
  (12330, 12333), (12337, 12341), (12347, 12347), (12441, 12446), (12540, 12542), (40981, 40981),
  (42232, 42237), (42508, 42508), (42607, 42610), (42612, 42621), (42623, 42623), (42652, 42655),
  (42736, 42737), (42752, 42785), (42864, 42864), (42888, 42890), (42994, 42996), (43000, 43001),
  (43010, 43010), (43014, 43014), (43019, 43019), (43045, 43046), (43052, 43052), (43204, 43205),
  (43232, 43249), (43263, 43263), (43302, 43309), (43335, 43345), (43392, 43394), (43443, 43443),
  (43446, 43449), (43452, 43453), (43471, 43471), (43493, 43494), (43561, 43566), (43569, 43570),
  (43573, 43574), (43587, 43587), (43596, 43596), (43632, 43632), (43644, 43644), (43696, 43696),
  (43698, 43700), (43703, 43704), (43710, 43711), (43713, 43713), (43741, 43741), (43756, 43757),
  (43763, 43764), (43766, 43766), (43867, 43871), (43881, 43883), (44005, 44005), (44008, 44008),
  (44013, 44013), (64286, 64286), (64434, 64450), (65024, 65039), (65043, 65043), (65056, 65071),
  (65106, 65106), (65109, 65109), (65279, 65279), (65287, 65287), (65294, 65294), (65306, 65306),
  (65342, 65342), (65344, 65344), (65392, 65392), (65438, 65439), (65507, 65507), (65529, 65531),
  (66045, 66045), (66272, 66272), (66422, 66426), (67456, 67461), (67463, 67504), (67506, 67514),
  (68097, 68099), (68101, 68102), (68108, 68111), (68152, 68154), (68159, 68159), (68325, 68326),
  (68900, 68903), (69291, 69292), (69446, 69456), (69506, 69509), (69633, 69633), (69688, 69702),
  (69744, 69744), (69747, 69748), (69759, 69761), (69811, 69814), (69817, 69818), (69821, 69821),
  (69826, 69826), (69837, 69837), (69888, 69890), (69927, 69931), (69933, 69940), (70003, 70003),
  (70016, 70017), (70070, 70078), (70089, 70092), (70095, 70095), (70191, 70193), (70196, 70196),
  (70198, 70199), (70206, 70206), (70367, 70367), (70371, 70378), (70400, 70401), (70459, 70460),
  (70464, 70464), (70502, 70508), (70512, 70516), (70712, 70719), (70722, 70724), (70726, 70726),
  (70750, 70750), (70835, 70840), (70842, 70842), (70847, 70848), (70850, 70851), (71090, 71093),
  (71100, 71101), (71103, 71104), (71132, 71133), (71219, 71226), (71229, 71229), (71231, 71232),
  (71339, 71339), (71341, 71341), (71344, 71349), (71351, 71351), (71453, 71455), (71458, 71461),
  (71463, 71467), (71727, 71735), (71737, 71738), (71995, 71996), (71998, 71998), (72003, 72003),
  (72148, 72151), (72154, 72155), (72160, 72160), (72193, 72202), (72243, 72248), (72251, 72254),
  (72263, 72263), (72273, 72278), (72281, 72283), (72330, 72342), (72344, 72345), (72752, 72758),
  (72760, 72765), (72767, 72767), (72850, 72871), (72874, 72880), (72882, 72883), (72885, 72886),
  (73009, 73014), (73018, 73018), (73020, 73021), (73023, 73029), (73031, 73031), (73104, 73105),
  (73109, 73109), (73111, 73111), (73459, 73460), (78896, 78904), (92912, 92916), (92976, 92982),
  (92992, 92995), (94031, 94031), (94095, 94111), (94176, 94177), (94179, 94180), (110576, 110579),
  (110581, 110587), (110589, 110590), (113821, 113822), (113824, 113827), (118528, 118573), (118576, 118598),
  (119143, 119145), (119155, 119170), (119173, 119179), (119210, 119213), (119362, 119364), (121344, 121398),
  (121403, 121452), (121461, 121461), (121476, 121476), (121499, 121503), (121505, 121519), (122880, 122886),
  (122888, 122904), (122907, 122913), (122915, 122916), (122918, 122922), (123184, 123197), (123566, 123566),
  (123628, 123631), (125136, 125142), (125252, 125259), (127995, 127999), (917505, 917505), (917536, 917631),
  (917760, 917999)
]

def isCasedChar (c : Char) : Bool := rangesContain c.toNat casedRanges

def isCaseIgnorableChar (c : Char) : Bool := rangesContain c.toNat caseIgnorableRanges

/-- Python `str.lower` on one character, except for U+03A3 (capital
sigma), whose lowering is context-dependent. -/
def pyLowerChar (c : Char) : List Char :=
  if c.toNat = 0x130 then [Char.ofNat 0x69, Char.ofNat 0x307]
  else
    match runDelta c.toNat lowerRuns with
    | some d => [Char.ofNat (c.toNat + d).toNat]
    | none => [c]

/-- CPython's `handle_capital_sigma`: U+03A3 lowers to final sigma ς
when preceded (ignoring case-ignorable characters) by a cased character
and not followed (ignoring case-ignorable characters) by one; `prev` is
the reversed list of original characters before the sigma. -/
def finalSigma (prev next : List Char) : Bool :=
  (match prev.dropWhile isCaseIgnorableChar with
   | [] => false
   | c :: _ => isCasedChar c) &&
  (match next.dropWhile isCaseIgnorableChar with
   | [] => true
   | c :: _ => !isCasedChar c)

/-- `str.lower` over the character list; `prev` holds the original
characters already passed, reversed, for the final-sigma context. -/
def pyLowerAux : List Char → List Char → List Char
  | _, [] => []
  | prev, c :: rest =>
    (if c.toNat = 0x3A3 then
      [Char.ofNat (if finalSigma prev rest then 0x3C2 else 0x3C3)]
    else pyLowerChar c) ++ pyLowerAux (c :: prev) rest

/-- Python `str.lower`. -/
def pyLower (s : String) : String :=
  String.mk (pyLowerAux [] s.data)

/-- Worker for `str.split()`: `acc` is the reversed run of non-space
characters currently being collected. -/
def splitWsAux : List Char → List Char → List (List Char)
  | [], acc => if acc.isEmpty then [] else [acc.reverse]
  | c :: rest, acc =>
    if isPySpace c then
      if acc.isEmpty then splitWsAux rest [] else acc.reverse :: splitWsAux rest []
    else splitWsAux rest (c :: acc)

/-- Python `s.split()`: split on runs of whitespace, no empty fragments. -/
def pyStrSplit (s : String) : List String :=
  (splitWsAux s.data []).map String.mk

/-- The inline tokenization `text.lower().split()` performed per document
inside `build_inverted_index` (line 97 of `final_task.py`). -/
def tokenize (text : String) : List String :=
  pyStrSplit (pyLower text)

/-! ## The index store -/

/-- The `InvertedIndex` class: its only attribute is `words_ids`. -/
structure InvertedIndex where
  words_ids : List (String × List Int)
  deriving DecidableEq

/-- Loop body of `InvertedIndex.query`: the local accumulator
`doc_indexes` is extended with `self.words_ids[word]` when
`word in self.words_ids`. -/
def queryLoop (words_ids : List (String × List Int)) (doc_indexes : List Int) :
    List String → List Int
  | [] => doc_indexes
  | word :: rest =>
    queryLoop words_ids
      (if containsKey words_ids word then
        doc_indexes ++ (dictFind? words_ids word).getD []
      else doc_indexes) rest

/-- `InvertedIndex.query` (lines 46-52 of `final_task.py`). -/
def InvertedIndex.query (self : InvertedIndex) (words : List String) : List Int :=
  queryLoop self.words_ids [] words

/-! ## The builder -/

/-- One iteration of the inner loop of `build_inverted_index`:
`if word not in words_ids: words_ids[word] = []` followed by
`words_ids[word].append(doc_id)`. -/
def addWord (words_ids : List (String × List Int)) (word : String) (doc_id : Int) :
    List (String × List Int) :=
  let wi := if containsKey words_ids word then words_ids else pyDictInsert words_ids word []
  pyDictInsert wi word ((dictFind? wi word).getD [] ++ [doc_id])

/-- The inner loop `for word in cleaned_text`. -/
def buildTokens (words_ids : List (String × List Int)) (doc_id : Int) :
    List String → List (String × List Int)
  | [] => words_ids
  | word :: rest => buildTokens (addWord words_ids word doc_id) doc_id rest

/-- The outer loop `for doc_id, text in documents.items()`. -/
def buildDocs (words_ids : List (String × List Int)) :
    List (Int × String) → List (String × List Int)
  | [] => words_ids
  | p :: rest => buildDocs (buildTokens words_ids p.1 (tokenize p.2)) rest

/-- `build_inverted_index` (lines 89-102 of `final_task.py`); `documents`
is the items of the document dict in its iteration (= insertion) order. -/
def build_inverted_index (documents : List (Int × String)) : InvertedIndex :=
  ⟨buildDocs [] documents⟩

/-! ### Error-aware builder

Python's `words_ids[word].append(doc_id)` raises `KeyError` when `word`
is not a key.  To make the totality claim about `build_inverted_index`
contentful, this variant keeps that failure path explicit and is proved
to never take it. -/

/-- `addWord` with the `KeyError` of the subscript read kept explicit. -/
def addWordE (words_ids : List (String × List Int)) (word : String) (doc_id : Int) :
    Except String (List (String × List Int)) :=
  let wi := if containsKey words_ids word then words_ids else pyDictInsert words_ids word []
  match dictFind? wi word with
  | none => Except.error "KeyError"
  | some cur => Except.ok (pyDictInsert wi word (cur ++ [doc_id]))

/-- Error-aware inner loop. -/
def buildTokensE (words_ids : List (String × List Int)) (doc_id : Int) :
    List String → Except String (List (String × List Int))
  | [] => Except.ok words_ids
  | word :: rest =>
    match addWordE words_ids word doc_id with
    | Except.error e => Except.error e
    | Except.ok wi => buildTokensE wi doc_id rest

/-- Error-aware outer loop. -/
def buildDocsE (words_ids : List (String × List Int)) :
    List (Int × String) → Except String (List (String × List Int))
  | [] => Except.ok words_ids
  | p :: rest =>
    match buildTokensE words_ids p.1 (tokenize p.2) with
    | Except.error e => Except.error e
    | Except.ok wi => buildDocsE wi rest

/-- `build_inverted_index` with every potential `KeyError` explicit. -/
def build_inverted_indexE (documents : List (Int × String)) :
    Except String InvertedIndex :=
  (buildDocsE [] documents).map InvertedIndex.mk

/-! ## JSON values, as produced by `json.load` -/

/-- A decoded JSON value.  `json.load` can hand the constructor any of
these, not only a string-to-integer-array object.  A number with a
fraction or exponent, and the constants `NaN`, `Infinity`, `-Infinity`,
become Python floats; IEEE-754 value semantics stay outside this
embedding, so `floatStr` records the accepted lexeme verbatim. -/
inductive Json where
  | null : Json
  | bool : Bool → Json
  | num : Int → Json
  | str : String → Json
  | arr : List Json → Json
  | obj : List (String × Json) → Json
  | floatStr : String → Json

/-- The JSON value `json.dump` serializes for a well-typed index dict. -/
def jsonOfIndex (d : List (String × List Int)) : Json :=
  Json.obj (d.map fun p => (p.1, Json.arr (p.2.map Json.num)))

/-- The result of `InvertedIndex.load`: the class constructor stores the
decoded JSON value in `words_ids` without validating its shape. -/
structure LoadedIndex where
  words_ids : Json

/-! ## Encoder: `json.dump` with default options -/

/-- One lowercase hex digit, as `"%04x" % n` produces. -/
def hexDigitChar (v : Nat) : Char :=
  if v < 10 then Char.ofNat (48 + v) else Char.ofNat (87 + v)

/-- Four lowercase hex digits of `n < 0x10000`. -/
def hex4 (n : Nat) : List Char :=
  [hexDigitChar (n / 4096 % 16), hexDigitChar (n / 256 % 16),
   hexDigitChar (n / 16 % 16), hexDigitChar (n % 16)]

/-- `\uXXXX` escape; code points beyond the BMP become a surrogate pair,
exactly as `json.dump` does with `ensure_ascii=True`. -/
def uEscape (n : Nat) : List Char :=
  if n < 0x10000 then '\\' :: 'u' :: hex4 n
  else
    ('\\' :: 'u' :: hex4 (0xD800 + (n - 0x10000) / 0x400)) ++
    ('\\' :: 'u' :: hex4 (0xDC00 + (n - 0x10000) % 0x400))

/-- How `json.dump` writes one string character: the two mandatory
escapes, the short control escapes, `\u00XX` for the remaining control
characters, raw ASCII otherwise, and `\uXXXX` for non-ASCII
(`ensure_ascii=True` is the default). -/
def escapeChar (c : Char) : List Char :=
  if c = '"' then ['\\', '"']
  else if c = '\\' then ['\\', '\\']
  else if c = '\x08' then ['\\', 'b']
  else if c = '\x0c' then ['\\', 'f']
  else if c = '\n' then ['\\', 'n']
  else if c = '\r' then ['\\', 'r']
  else if c = '\t' then ['\\', 't']
  else if c.toNat < 0x20 then uEscape c.toNat
  else if 0x7E < c.toNat then uEscape c.toNat
  else [c]

/-- Escape a whole string body. -/
def escapeChars : List Char → List Char
  | [] => []
  | c :: rest => escapeChar c ++ escapeChars rest

/-- A JSON string literal. -/
def encString (s : String) : List Char :=
  '"' :: escapeChars s.data ++ ['"']

/-- Decimal digits of `n`, most significant first; the first argument is
fuel (`n` itself suffices since the value shrinks tenfold each step). -/
def natDigitsAux : Nat → Nat → List Char → List Char
  | 0, _, acc => acc
  | _ + 1, 0, acc => acc
  | fuel + 1, n + 1, acc =>
    natDigitsAux fuel ((n + 1) / 10) (Char.ofNat (48 + (n + 1) % 10) :: acc)

/-- Decimal representation of a natural number. -/
def natDigits (n : Nat) : List Char :=
  if n = 0 then ['0'] else natDigitsAux n n []

/-- Python `repr` of an int, as `json.dump` writes it. -/
def encInt (i : Int) : List Char :=
  if i < 0 then '-' :: natDigits i.natAbs else natDigits i.natAbs

/-- Interleave a separator, as `", ".join`-style item separation does. -/
def joinSep (sep : List Char) : List (List Char) → List Char
  | [] => []
  | [x] => x
  | x :: y :: rest => x ++ sep ++ joinSep sep (y :: rest)

/-- A posting list `[id, id, ...]` with the default `", "` separator. -/
def encPostings (l : List Int) : List Char :=
  '[' :: joinSep [',', ' '] (l.map encInt) ++ [']']

/-- One `"term": [ids]` member with the default `": "` key separator. -/
def encEntry (p : String × List Int) : List Char :=
  encString p.1 ++ ':' :: ' ' :: encPostings p.2

/-- The file contents `json.dump(self.words_ids, f)` writes. -/
def dumpChars (d : List (String × List Int)) : List Char :=
  '{' :: joinSep [',', ' '] (d.map encEntry) ++ ['}']

/-- `InvertedIndex.dump` (lines 54-61 of `final_task.py`), modelled at the
level of the file contents it writes. -/
def InvertedIndex.dump (self : InvertedIndex) : String :=
  String.mk (dumpChars self.words_ids)

/-! ## Decoder: `json.load` -/

/-- JSON whitespace skipped by the decoder. -/
def isJsonWs (c : Char) : Bool :=
  c = ' ' || c = '\t' || c = '\n' || c = '\r'

/-- Skip JSON whitespace. -/
def skipWs : List Char → List Char
  | [] => []
  | c :: rest => if isJsonWs c then skipWs rest else c :: rest

/-- Value of one hex digit (the decoder accepts both cases). -/
def hexVal (c : Char) : Option Nat :=
  if '0' ≤ c ∧ c ≤ '9' then some (c.toNat - 48)
  else if 'a' ≤ c ∧ c ≤ 'f' then some (c.toNat - 87)
  else if 'A' ≤ c ∧ c ≤ 'F' then some (c.toNat - 55)
  else none

/-- Read exactly four hex digits. -/
def parseHex4 : List Char → Option (Nat × List Char)
  | a :: b :: c :: d :: rest =>
    match hexVal a, hexVal b, hexVal c, hexVal d with
    | some x, some y, some z, some w => some (((x * 16 + y) * 16 + z) * 16 + w, rest)
    | _, _, _, _ => none
  | _ => none

/-- Decode one `\uXXXX` escape (after the `\u`), recombining a
high/low surrogate pair into one code point as CPython's `scanstring`
does.  A lone surrogate cannot be represented in `Char` and is rejected,
the only divergence from CPython, which materializes it. -/
def decodeUEscape (r2 : List Char) : Option (Char × List Char) :=
  match parseHex4 r2 with
  | none => none
  | some (n, r1) =>
    if 0xD800 ≤ n ∧ n ≤ 0xDBFF then
      match r1 with
      | b1 :: b2 :: r2' =>
        if b1 = '\\' ∧ b2 = 'u' then
          match parseHex4 r2' with
          | none => none
          | some (m, r3) =>
            if 0xDC00 ≤ m ∧ m ≤ 0xDFFF then
              some (Char.ofNat (0x10000 + (n - 0xD800) * 0x400 + (m - 0xDC00)), r3)
            else none
        else none
      | _ => none
    else if 0xDC00 ≤ n ∧ n ≤ 0xDFFF then none
    else some (Char.ofNat n, r1)

/-- Strict string-literal scanner (Python `scanstring`), entered after the
opening quote; `acc` holds the decoded characters reversed.  Raw control
characters are rejected; `\uXXXX` escapes are decoded by
`decodeUEscape`. -/
def parseStringAux : Nat → List Char → List Char → Option (List Char × List Char)
  | 0, _, _ => none
  | fuel + 1, acc, cs =>
    match cs with
    | [] => none
    | c :: rest =>
      if c = '"' then some (acc.reverse, rest)
      else if c = '\\' then
        match rest with
        | [] => none
        | e :: rest2 =>
          if e = '"' then parseStringAux fuel ('"' :: acc) rest2
          else if e = '\\' then parseStringAux fuel ('\\' :: acc) rest2
          else if e = '/' then parseStringAux fuel ('/' :: acc) rest2
          else if e = 'b' then parseStringAux fuel ('\x08' :: acc) rest2
          else if e = 'f' then parseStringAux fuel ('\x0c' :: acc) rest2
          else if e = 'n' then parseStringAux fuel ('\n' :: acc) rest2
          else if e = 'r' then parseStringAux fuel ('\r' :: acc) rest2
          else if e = 't' then parseStringAux fuel ('\t' :: acc) rest2
          else if e = 'u' then
            match decodeUEscape rest2 with
            | none => none
            | some (ch, r1) => parseStringAux fuel (ch :: acc) r1
          else none
      else if c.toNat < 0x20 then none
      else parseStringAux fuel (c :: acc) rest

/-- Digit run of an integer literal, accumulating its value. -/
def parseDigitsAux : List Char → Nat → Nat × List Char
  | [], acc => (acc, [])
  | c :: rest, acc =>
    if c.isDigit then parseDigitsAux rest (acc * 10 + (c.toNat - 48)) else (acc, c :: rest)

/-- Unsigned integer literal `0|[1-9][0-9]*` (after `0` no further digits
belong to the literal, as in the JSON number grammar). -/
def parseUNumber : List Char → Option (Nat × List Char)
  | [] => none
  | c :: rest =>
    if c = '0' then some (0, rest)
    else if c.isDigit then some (parseDigitsAux rest (c.toNat - 48))
    else none

/-- The signed integer part `-?(0|[1-9][0-9]*)` of a JSON number. -/
def parseSignedInt : List Char → Option (Int × List Char)
  | [] => none
  | c :: rest =>
    if c = '-' then (parseUNumber rest).map fun p => (-(p.1 : Int), p.2)
    else (parseUNumber (c :: rest)).map fun p => ((p.1 : Int), p.2)

/-- Longest run of decimal digits. -/
def takeDigits : List Char → List Char × List Char
  | [] => ([], [])
  | c :: rest =>
    if c.isDigit then
      let p := takeDigits rest
      (c :: p.1, p.2)
    else ([], c :: rest)

/-- The optional fraction `(\.[0-9]+)?` of `json.load`'s number regex:
`some` with the remaining input when a fraction was consumed. -/
def parseFrac : List Char → Option (List Char)
  | d :: c :: rest => if d = '.' ∧ c.isDigit then some (takeDigits rest).2 else none
  | _ => none

/-- The optional exponent `([eE][-+]?[0-9]+)?` of the number regex. -/
def parseExp : List Char → Option (List Char)
  | e :: rest =>
    if e = 'e' ∨ e = 'E' then
      match rest with
      | s :: rest2 =>
        if s = '+' ∨ s = '-' then
          match rest2 with
          | c :: rest3 => if c.isDigit then some (takeDigits rest3).2 else none
          | [] => none
        else if s.isDigit then some (takeDigits rest2).2 else none
      | [] => none
    else none
  | [] => none

/-- A JSON number, per `json.load`'s `NUMBER_RE`: integer part, then
optional fraction and exponent.  An integer-only match becomes a Python
int (`Json.num`); when a fraction or exponent is present Python calls
`float` on the matched text, which this embedding keeps as the verbatim
lexeme. -/
def parseNumber (cs : List Char) : Option (Json × List Char) :=
  match parseSignedInt cs with
  | none => none
  | some (i, r1) =>
    match parseFrac r1 with
    | some r2 =>
      let r3 := (parseExp r2).getD r2
      some (Json.floatStr (String.mk (cs.take (cs.length - r3.length))), r3)
    | none =>
      match parseExp r1 with
      | some r3 =>
        some (Json.floatStr (String.mk (cs.take (cs.length - r3.length))), r3)
      | none => some (Json.num i, r1)

/-- State of the recursive-descent scanner: at a value, inside an array
element list, or inside an object member list (with the elements or
members decoded so far; object members land in a Python dict, so
duplicate keys overwrite in place). -/
inductive PMode where
  | val : PMode
  | elems : List Json → PMode
  | members : List (String × Json) → PMode

/-- The scanner of `json.load` (`py_make_scanner` with `strict=True`),
with explicit fuel; every recursive call consumes at least one input
character first, so `length + 1` fuel always suffices. -/
def parseP : Nat → PMode → List Char → Option (Json × List Char)
  | 0, _, _ => none
  | fuel + 1, PMode.val, cs =>
    match cs with
    | [] => none
    | c :: rest =>
      if c = '{' then
        match skipWs rest with
        | [] => none
        | d :: r2 => if d = '}' then some (Json.obj [], r2) else parseP fuel (PMode.members []) (d :: r2)
      else if c = '[' then
        match skipWs rest with
        | [] => none
        | d :: r2 => if d = ']' then some (Json.arr [], r2) else parseP fuel (PMode.elems []) (d :: r2)
      else if c = '"' then
        (parseStringAux (rest.length + 1) [] rest).map fun p => (Json.str (String.mk p.1), p.2)
      else if c = 't' then
        match rest with
        | 'r' :: 'u' :: 'e' :: r => some (Json.bool true, r)
        | _ => none
      else if c = 'f' then
        match rest with
        | 'a' :: 'l' :: 's' :: 'e' :: r => some (Json.bool false, r)
        | _ => none
      else if c = 'n' then
        match rest with
        | 'u' :: 'l' :: 'l' :: r => some (Json.null, r)
        | _ => none
      else
        match parseNumber (c :: rest) with
        | some jr => some jr
        | none =>
          if c = 'N' then
            match rest with
            | 'a' :: 'N' :: r => some (Json.floatStr "NaN", r)
            | _ => none
          else if c = 'I' then
            match rest with
            | 'n' :: 'f' :: 'i' :: 'n' :: 'i' :: 't' :: 'y' :: r =>
              some (Json.floatStr "Infinity", r)
            | _ => none
          else if c = '-' then
            match rest with
            | 'I' :: 'n' :: 'f' :: 'i' :: 'n' :: 'i' :: 't' :: 'y' :: r =>
              some (Json.floatStr "-Infinity", r)
            | _ => none
          else none
  | fuel + 1, PMode.elems acc, cs =>
    match parseP fuel PMode.val cs with
    | none => none
    | some (v, r) =>
      match skipWs r with
      | [] => none
      | d :: r2 =>
        if d = ',' then parseP fuel (PMode.elems (v :: acc)) (skipWs r2)
        else if d = ']' then some (Json.arr (v :: acc).reverse, r2)
        else none
  | fuel + 1, PMode.members acc, cs =>
    match cs with
    | [] => none
    | c :: rest =>
      if c = '"' then
        match parseStringAux (rest.length + 1) [] rest with
        | none => none
        | some (k, r1) =>
          match skipWs r1 with
          | [] => none
          | d :: r2 =>
            if d = ':' then
              match parseP fuel PMode.val (skipWs r2) with
              | none => none
              | some (v, r3) =>
                match skipWs r3 with
                | [] => none
                | d2 :: r4 =>
                  if d2 = ',' then
                    parseP fuel (PMode.members (pyDictInsert acc (String.mk k) v)) (skipWs r4)
                  else if d2 = '}' then
                    some (Json.obj (pyDictInsert acc (String.mk k) v), r4)
                  else none
            else none
      else none

/-- `InvertedIndex.load` (lines 63-72 of `final_task.py`), modelled on the
file contents: `json.load` decodes the stream (leading and trailing
whitespace allowed, anything after the value is `Extra data`) and the
result — whatever its shape — is stored as `words_ids`. -/
def InvertedIndex.load (contents : String) : Except String LoadedIndex :=
  let cs := skipWs contents.data
  match parseP (cs.length + 1) PMode.val cs with
  | some (j, rest) =>
    if skipWs rest = [] then Except.ok ⟨j⟩ else Except.error "Extra data"
  | none => Except.error "Expecting value"

/-! ## Dictionary lemmas -/

theorem containsKey_eq_isSome {α : Type} (d : List (String × α)) (k : String) :
    containsKey d k = (dictFind? d k).isSome := by
  induction d with
  | nil => rfl
  | cons p rest ih =>
    obtain ⟨k', v⟩ := p
    by_cases h : k' = k <;> simp [containsKey, dictFind?, h, ih]

theorem dictFind?_eq_none_of_contains_false {α : Type} {d : List (String × α)}
    {k : String} (h : containsKey d k = false) : dictFind? d k = none := by
  have hs := containsKey_eq_isSome d k
  rw [h] at hs
  exact Option.not_isSome_iff_eq_none.mp (by simp [← hs])

theorem dictFind?_pyDictInsert {α : Type} (d : List (String × α)) (k u : String) (v : α) :
    dictFind? (pyDictInsert d k v) u = if u = k then some v else dictFind? d u := by
  induction d with
  | nil =>
    simp only [pyDictInsert, dictFind?]
    by_cases h : k = u
    · subst h; simp
    · have h' : ¬ u = k := fun hh => h hh.symm
      simp [h, h']
  | cons p rest ih =>
    obtain ⟨k', v'⟩ := p
    simp only [pyDictInsert]
    by_cases hk : k' = k
    · subst hk
      simp only [if_pos rfl, dictFind?]
      by_cases hu : k' = u
      · subst hu; simp
      · have h' : ¬ u = k' := fun hh => hu hh.symm
        simp [hu, h']
    · simp only [if_neg hk, dictFind?]
      by_cases hu : k' = u
      · subst hu
        simp [dictFind?, hk]
      · simp [hu, ih]

theorem pyDictInsert_of_contains_false {α : Type} {d : List (String × α)} {k : String}
    (h : containsKey d k = false) (v : α) : pyDictInsert d k v = d ++ [(k, v)] := by
  induction d with
  | nil => rfl
  | cons p rest ih =>
    obtain ⟨k', v'⟩ := p
    simp [containsKey, Bool.or_eq_false_iff] at h
    simp [pyDictInsert, h.1, ih h.2]

theorem pyDictInsert_append_overwrite {α : Type} {d : List (String × α)} {k : String}
    (h : containsKey d k = false) (v0 v : α) :
    pyDictInsert (d ++ [(k, v0)]) k v = d ++ [(k, v)] := by
  induction d with
  | nil => simp [pyDictInsert]
  | cons p rest ih =>
    obtain ⟨k', v'⟩ := p
    simp [containsKey, Bool.or_eq_false_iff] at h
    simp [pyDictInsert, h.1, ih h.2]

theorem mem_pyDictInsert {α : Type} {d : List (String × α)} {k : String} {v : α}
    {q : String × α} (h : q ∈ pyDictInsert d k v) : q = (k, v) ∨ q ∈ d := by
  induction d with
  | nil => simpa [pyDictInsert] using h
  | cons p rest ih =>
    obtain ⟨k', v'⟩ := p
    by_cases hk : k' = k
    · subst hk
      simp [pyDictInsert] at h
      rcases h with h | h
      · exact Or.inl (by simp [h])
      · exact Or.inr (List.mem_cons_of_mem _ h)
    · simp [pyDictInsert, hk] at h
      rcases h with h | h
      · exact Or.inr (by simp [h])
      · rcases ih h with h' | h'
        · exact Or.inl h'
        · exact Or.inr (List.mem_cons_of_mem _ h')

theorem dictFind?_mem {α : Type} {d : List (String × α)} {k : String} {v : α}
    (h : dictFind? d k = some v) : (k, v) ∈ d := by
  induction d with
  | nil => simp [dictFind?] at h
  | cons p rest ih =>
    obtain ⟨k', v'⟩ := p
    by_cases hk : k' = k
    · subst hk
      simp [dictFind?] at h
      simp [h]
    · simp [dictFind?, hk] at h
      exact List.mem_cons_of_mem _ (ih h)

/-! ## Query lemmas -/

theorem queryLoop_eq (d : List (String × List Int)) (ws : List String) (acc : List Int) :
    queryLoop d acc ws = acc ++ (ws.map (lookupList d)).flatten := by
  induction ws generalizing acc with
  | nil => simp [queryLoop]
  | cons w rest ih =>
    rw [queryLoop, ih]
    by_cases h : containsKey d w = true
    · simp [h, lookupList, List.append_assoc]
    · have hn : dictFind? d w = none :=
        dictFind?_eq_none_of_contains_false (Bool.not_eq_true _ ▸ h)
      simp [h, lookupList, hn]

/-- C2: `InvertedIndex.query` processes the query terms in the order
supplied without deduplication; each term present as a key contributes
its whole posting list in stored order, each absent term contributes
nothing, and the result is the concatenation of the contributions (a
duplicated term therefore contributes twice).  The embedded operation is
a total function, so no term can raise. -/
theorem c2_query_is_ordered_concatenation (self : InvertedIndex) (words : List String) :
    self.query words = (words.map (lookupList self.words_ids)).flatten := by
  simpa using queryLoop_eq self.words_ids words []

/-- C10: querying with the empty term sequence returns the empty list of
document identifiers (and, the operation being total, does not raise). -/
theorem c10_query_empty (self : InvertedIndex) : self.query [] = [] := rfl

/-! ## C4: case folding of query terms -/

/-- C4 counterexample: the claim asserts that for documents
`{1: "Milk"}` the query `["Milk"]` returns `[1]`; on the code it returns
`[]`, because `InvertedIndex.query` looks the term up verbatim and never
lowercases it, while build stored the lowercased key `"milk"`. -/
theorem c4_counterexample :
    (build_inverted_index [(1, "Milk")]).query ["Milk"] ≠ [1] := by decide

/-- C4 amended: for documents `{1: "Milk"}`, `query(["milk"])` returns
`[1]`, but `query(["Milk"])` returns `[]`: query terms are matched
verbatim against the stored lowercase keys — the core lowercases
document terms during build and does not lowercase query terms, so only
already-lowercase query terms can match. -/
theorem c4_case_folding_amended :
    (build_inverted_index [(1, "Milk")]).query ["milk"] = [1] ∧
    (build_inverted_index [(1, "Milk")]).query ["Milk"] = [] := by decide

/-! ## C8: no update-in-place mutation -/

/-- `InvertedIndex.query` in store-threading form.  The Python body only
reads `self.words_ids` (the `in` test and the subscript on line 50-51);
the single mutated object is the fresh local list `doc_indexes`, so each
loop iteration passes the store through unchanged. -/
def queryLoopS (self : InvertedIndex) (doc_indexes : List Int) :
    List String → List Int × InvertedIndex
  | [] => (doc_indexes, self)
  | word :: rest =>
    queryLoopS self
      (if containsKey self.words_ids word then
        doc_indexes ++ (dictFind? self.words_ids word).getD []
      else doc_indexes) rest

/-- `InvertedIndex.query` returning the store state after the call. -/
def InvertedIndex.queryS (self : InvertedIndex) (words : List String) :
    List Int × InvertedIndex :=
  queryLoopS self [] words

/-- `InvertedIndex.dump` returning the store state after the call: the
body (lines 60-61) only reads `self.words_ids` to serialize it. -/
def InvertedIndex.dumpS (self : InvertedIndex) : String × InvertedIndex :=
  (self.dump, self)

theorem queryLoopS_fst (self : InvertedIndex) (acc : List Int) (ws : List String) :
    queryLoopS self acc ws = (queryLoop self.words_ids acc ws, self) := by
  induction ws generalizing acc with
  | nil => rfl
  | cons w rest ih => rw [queryLoopS, queryLoop, ih]

/-- C8: neither `query` nor `dump` mutates the store's `words_ids`
mapping — after either call the store is exactly the store before it,
and `query` returns the same result as the pure reading of the map; the
store is write-once-then-read-many after construction. -/
theorem c8_no_store_mutation (self : InvertedIndex) (words : List String) :
    (self.queryS words).2 = self ∧ (self.queryS words).1 = self.query words ∧
    self.dumpS.2 = self := by
  refine ⟨?_, ?_, rfl⟩
  · rw [InvertedIndex.queryS, queryLoopS_fst]
  · rw [InvertedIndex.queryS, queryLoopS_fst]
    rfl

/-! ## C9: totality of the builder -/

theorem addWordE_ok (wi : List (String × List Int)) (w : String) (id : Int) :
    addWordE wi w id = Except.ok (addWord wi w id) := by
  rw [addWordE, addWord]
  by_cases h : containsKey wi w = true
  · simp only [h, if_pos]
    have : (dictFind? wi w).isSome := by rw [← containsKey_eq_isSome, h]
    obtain ⟨v, hv⟩ := Option.isSome_iff_exists.mp this
    simp [hv]
  · simp only [Bool.not_eq_true] at h
    simp only [h, Bool.false_eq_true, if_neg, not_false_iff]
    rw [dictFind?_pyDictInsert]
    simp

theorem buildTokensE_ok (ts : List String) (wi : List (String × List Int)) (id : Int) :
    buildTokensE wi id ts = Except.ok (buildTokens wi id ts) := by
  induction ts generalizing wi with
  | nil => rfl
  | cons t rest ih =>
    rw [buildTokensE, addWordE_ok]
    exact ih (addWord wi t id)

theorem buildDocsE_ok (ds : List (Int × String)) (wi : List (String × List Int)) :
    buildDocsE wi ds = Except.ok (buildDocs wi ds) := by
  induction ds generalizing wi with
  | nil => rfl
  | cons p rest ih =>
    rw [buildDocsE, buildTokensE_ok]
    exact ih (buildTokens wi p.1 (tokenize p.2))

/-- C9: `build_inverted_index` is total: for every document mapping the
run in which every potential `KeyError` of
`words_ids[word].append(doc_id)` is kept explicit raises nothing and
returns the built index (the guard on line 99 inserts the key first, so
the subscript on line 101 always finds it). -/
theorem c9_builder_total (documents : List (Int × String)) :
    build_inverted_indexE documents = Except.ok (build_inverted_index documents) := by
  rw [build_inverted_indexE, build_inverted_index, buildDocsE_ok]
  rfl

/-! ## C3: build semantics -/

theorem lookupList_addWord (wi : List (String × List Int)) (w u : String) (id : Int) :
    lookupList (addWord wi w id) u =
      if u = w then lookupList wi u ++ [id] else lookupList wi u := by
  rw [addWord]
  by_cases h : containsKey wi w = true
  · simp only [h, if_pos]
    rw [lookupList, dictFind?_pyDictInsert]
    by_cases hu : u = w
    · subst hu; simp [lookupList]
    · simp [hu, lookupList]
  · simp only [Bool.not_eq_true] at h
    simp only [h, Bool.false_eq_true, if_neg, not_false_iff]
    rw [lookupList, dictFind?_pyDictInsert]
    by_cases hu : u = w
    · subst hu
      rw [dictFind?_pyDictInsert]
      simp [lookupList, dictFind?_eq_none_of_contains_false h]
    · simp only [hu, if_neg, not_false_iff]
      rw [dictFind?_pyDictInsert]
      simp [hu, lookupList]

theorem lookupList_buildTokens (ts : List String) (wi : List (String × List Int))
    (id : Int) (u : String) :
    lookupList (buildTokens wi id ts) u =
      lookupList wi u ++ List.replicate (ts.count u) id := by
  induction ts generalizing wi with
  | nil => simp [buildTokens]
  | cons t rest ih =>
    rw [buildTokens, ih, lookupList_addWord, List.count_cons]
    by_cases h : u = t
    · have hb : (t == u) = true := by simpa using h.symm
      rw [if_pos h, if_pos hb, List.append_assoc, List.singleton_append,
        ← List.replicate_succ]
    · have hb : ¬ (t == u) = true := by
        simpa using fun hh : t = u => h hh.symm
      rw [if_neg h, if_neg hb]
      simp

theorem lookupList_buildDocs (ds : List (Int × String)) (wi : List (String × List Int))
    (u : String) :
    lookupList (buildDocs wi ds) u =
      lookupList wi u ++
        ds.flatMap (fun p => List.replicate ((tokenize p.2).count u) p.1) := by
  induction ds generalizing wi with
  | nil => simp [buildDocs]
  | cons p rest ih =>
    rw [buildDocs, ih, lookupList_buildTokens, List.flatMap_cons, List.append_assoc]

/-- C3: in the built index, the posting list of a term `w` is exactly,
for each document in mapping-iteration order, the document's identifier
repeated once per occurrence of `w` among its tokens — occurrence-based
appending (not once per document), occurrence order within a document,
document order across documents, no deduplication, no sorting; the list
exists (is non-empty) exactly when `w` occurs somewhere. -/
theorem c3_build_posting_lists (documents : List (Int × String)) (w : String) :
    lookupList (build_inverted_index documents).words_ids w =
      documents.flatMap (fun p => List.replicate ((tokenize p.2).count w) p.1) := by
  rw [build_inverted_index]
  simpa [lookupList, dictFind?] using lookupList_buildDocs documents [] w

/-! ## C7: index invariant -/

theorem addWord_preserves_good (P : Int → Prop) {wi : List (String × List Int)}
    (hg : ∀ p ∈ wi, p.2 ≠ [] ∧ ∀ i ∈ p.2, P i) {w : String} {id : Int} (hid : P id) :
    ∀ p ∈ addWord wi w id, p.2 ≠ [] ∧ ∀ i ∈ p.2, P i := by
  intro q hq
  rw [addWord] at hq
  by_cases h : containsKey wi w = true
  · rw [if_pos h] at hq
    rcases mem_pyDictInsert hq with h1 | h1
    · subst h1
      refine ⟨by simp, ?_⟩
      intro i hi
      rcases List.mem_append.mp hi with hi | hi
      · cases hf : dictFind? wi w with
        | none => rw [hf] at hi; simp at hi
        | some v =>
          rw [hf] at hi
          exact (hg (w, v) (dictFind?_mem hf)).2 i hi
      · have : i = id := by simpa using hi
        exact this ▸ hid
    · exact hg q h1
  · simp only [Bool.not_eq_true] at h
    rw [if_neg (by simp [h]), dictFind?_pyDictInsert, if_pos rfl,
      pyDictInsert_of_contains_false h, pyDictInsert_append_overwrite h] at hq
    rcases List.mem_append.mp hq with h1 | h1
    · exact hg q h1
    · have hq' : q = (w, [id]) := by simpa using h1
      subst hq'
      refine ⟨by simp, ?_⟩
      intro i hi
      have : i = id := by simpa using hi
      exact this ▸ hid

theorem buildTokens_preserves_good (P : Int → Prop) (ts : List String)
    {wi : List (String × List Int)} (hg : ∀ p ∈ wi, p.2 ≠ [] ∧ ∀ i ∈ p.2, P i)
    {id : Int} (hid : P id) :
    ∀ p ∈ buildTokens wi id ts, p.2 ≠ [] ∧ ∀ i ∈ p.2, P i := by
  induction ts generalizing wi with
  | nil => exact hg
  | cons t rest ih => exact ih (addWord_preserves_good P hg hid)

theorem buildDocs_preserves_good (P : Int → Prop) (ds : List (Int × String))
    (wi : List (String × List Int)) (hg : ∀ p ∈ wi, p.2 ≠ [] ∧ ∀ i ∈ p.2, P i)
    (hds : ∀ q ∈ ds, P q.1) :
    ∀ p ∈ buildDocs wi ds, p.2 ≠ [] ∧ ∀ i ∈ p.2, P i := by
  induction ds generalizing wi with
  | nil => exact hg
  | cons d rest ih =>
    exact ih _
      (buildTokens_preserves_good P _ hg (hds d (List.mem_cons_self d rest)))
      (fun q hq => hds q (List.mem_cons_of_mem d hq))

/-- C7: in the built index every posting list is non-empty (a term never
appears as a key with no postings) and every document identifier in any
posting list is a key of the input document mapping. -/
theorem c7_index_invariant (documents : List (Int × String)) (w : String) (l : List Int)
    (h : (w, l) ∈ (build_inverted_index documents).words_ids) :
    l ≠ [] ∧ ∀ i ∈ l, ∃ text, (i, text) ∈ documents := by
  have := buildDocs_preserves_good (fun i => ∃ text, (i, text) ∈ documents) documents
    [] (by simp) (fun q hq => ⟨q.2, by simpa using hq⟩) (w, l)
  exact this h

/-- C7 witness: a concrete instance of the invariant theorem. -/
theorem c7_index_invariant_witness :
    (("milk", [1, 2]) ∈ (build_inverted_index [(1, "milk water"), (2, "milk")]).words_ids) ∧
    ([1, 2] ≠ ([] : List Int) ∧ ∀ i ∈ [(1 : Int), 2], ∃ text,
      (i, text) ∈ [((1 : Int), "milk water"), (2, "milk")]) :=
  ⟨by decide, c7_index_invariant [(1, "milk water"), (2, "milk")] "milk" [1, 2] (by decide)⟩

/-! ## C6: tokenization policy -/

/-- Modelled from the spec's words (§4.1 Tokenizer): lowercase the whole
input, then split it at every whitespace character and discard the empty
fragments, which leaves exactly the maximal runs of non-whitespace
characters in left-to-right order.  This is the specification-side
definition that `tokenize` (the code-side `text.lower().split()`) is
proved to refine. -/
def tokenizeSpec (s : String) : List String :=
  ((((pyLower s).data.splitOnP isPySpace).filter fun l => !l.isEmpty).map String.mk)

theorem modifyHead_id {α : Type} (ls : List (List α)) :
    ls.modifyHead (fun x => x) = ls := by
  cases ls <;> simp

theorem splitWsAux_splitOnP (cs acc : List Char) :
    splitWsAux cs acc =
      (((cs.splitOnP isPySpace).modifyHead (acc.reverse ++ ·)).filter
        fun l => !l.isEmpty) := by
  induction cs generalizing acc with
  | nil =>
    rw [splitWsAux, List.splitOnP_nil]
    by_cases h : acc.isEmpty = true
    · have : acc = [] := by simpa using h
      subst this
      simp
    · have hne : acc.reverse ≠ [] := by
        simpa using (by simpa using h : acc ≠ [])
      rw [if_neg h]
      simp [List.modifyHead, List.filter, List.isEmpty_eq_false.mpr hne]
  | cons c rest ih =>
    rw [splitWsAux, List.splitOnP_cons]
    by_cases h : isPySpace c = true
    · simp only [h, if_true]
      by_cases ha : acc.isEmpty = true
      · have : acc = [] := by simpa using ha
        subst this
        rw [ih []]
        simp [modifyHead_id]
      · have hne : acc.reverse ≠ [] := by
          simpa using (by simpa using ha : acc ≠ [])
        rw [if_neg (by simpa using ha), ih []]
        obtain ⟨hd, tl, heq⟩ :=
          List.exists_cons_of_ne_nil (List.splitOnP_ne_nil _ rest)
        rw [heq]
        simp [List.modifyHead, List.filter, List.isEmpty_eq_false.mpr hne]
    · simp only [h, Bool.false_eq_true, if_false]
      rw [ih (c :: acc)]
      obtain ⟨hd, tl, heq⟩ := List.exists_cons_of_ne_nil (List.splitOnP_ne_nil _ rest)
      rw [heq]
      simp [List.modifyHead]

/-- C6: the inline tokenization is exactly the spec's policy — lowercase
the entire input, then split it into the maximal whitespace-free runs in
left-to-right order, discarding empty fragments; it is a pure function
(trivially deterministic), `"Hello World"` tokenizes to
`["hello", "world"]` and `""` to the empty sequence. -/
theorem c6_tokenization_policy :
    (∀ s, tokenize s = tokenizeSpec s) ∧
    tokenize "Hello World" = ["hello", "world"] ∧
    tokenize "" = [] := by
  refine ⟨fun s => ?_, by decide, rfl⟩
  rw [tokenize, tokenizeSpec, pyStrSplit, splitWsAux_splitOnP]
  simp [modifyHead_id]

/-! ## Character and hex-digit lemmas for the JSON round trip -/

theorem char_valid_nat (c : Char) :
    c.toNat < 0xD800 ∨ (0xDFFF < c.toNat ∧ c.toNat < 0x110000) := by
  rcases c.valid with h | ⟨h1, h2⟩
  · exact Or.inl (UInt32.toNat_lt_of_lt (by norm_num) h)
  · exact Or.inr ⟨UInt32.lt_toNat_of_lt (by norm_num) h1,
      UInt32.toNat_lt_of_lt (by norm_num) h2⟩

theorem hexVal_hexDigitChar : ∀ v, v < 16 → hexVal (hexDigitChar v) = some v := by
  decide

theorem parseHex4_hex4 (n : Nat) (h : n < 65536) (rest : List Char) :
    parseHex4 (hex4 n ++ rest) = some (n, rest) := by
  have h0 := hexVal_hexDigitChar (n / 4096 % 16) (Nat.mod_lt _ (by norm_num))
  have h1 := hexVal_hexDigitChar (n / 256 % 16) (Nat.mod_lt _ (by norm_num))
  have h2 := hexVal_hexDigitChar (n / 16 % 16) (Nat.mod_lt _ (by norm_num))
  have h3 := hexVal_hexDigitChar (n % 16) (Nat.mod_lt _ (by norm_num))
  rw [hex4]
  simp only [List.cons_append, List.nil_append, parseHex4, h0, h1, h2, h3]
  have he : ((n / 4096 % 16 * 16 + n / 256 % 16) * 16 + n / 16 % 16) * 16 + n % 16 = n := by
    omega
  rw [he]

/-! ## Decimal integer literal round trip -/

/-- The next input character (if any) is not a decimal digit, so a digit
run ends exactly here. -/
def headNotDigit : List Char → Prop
  | [] => True
  | c :: _ => c.isDigit = false

theorem natDigitsAux_acc (fuel : Nat) : ∀ (n : Nat) (acc : List Char),
    natDigitsAux fuel n acc = natDigitsAux fuel n [] ++ acc := by
  induction fuel with
  | zero => intro n acc; rfl
  | succ f ih =>
    intro n acc
    cases n with
    | zero => rfl
    | succ m =>
      rw [natDigitsAux, natDigitsAux, ih ((m + 1) / 10), ih ((m + 1) / 10)
        [Char.ofNat (48 + (m + 1) % 10)]]
      simp [List.append_assoc]

theorem natDigitsAux_fuel (n : Nat) : ∀ fuel fuel', n ≤ fuel → n ≤ fuel' →
    natDigitsAux fuel n [] = natDigitsAux fuel' n [] := by
  induction n using Nat.strong_induction_on with
  | _ n ih =>
    intro fuel fuel' h h'
    cases n with
    | zero => cases fuel <;> cases fuel' <;> rfl
    | succ m =>
      obtain ⟨f, rfl⟩ : ∃ f, fuel = f + 1 := ⟨fuel - 1, by omega⟩
      obtain ⟨f', rfl⟩ : ∃ g, fuel' = g + 1 := ⟨fuel' - 1, by omega⟩
      rw [natDigitsAux, natDigitsAux, natDigitsAux_acc f, natDigitsAux_acc f',
        ih ((m + 1) / 10) (by omega) f f' (by omega) (by omega)]

theorem digitsCore_unfold (n : Nat) (h : 0 < n) :
    natDigitsAux n n [] =
      natDigitsAux (n / 10) (n / 10) [] ++ [Char.ofNat (48 + n % 10)] := by
  obtain ⟨m, rfl⟩ : ∃ m, n = m + 1 := ⟨n - 1, by omega⟩
  rw [natDigitsAux, natDigitsAux_acc m,
    natDigitsAux_fuel ((m + 1) / 10) m ((m + 1) / 10) (by omega) (by omega)]

theorem digit_char_facts : ∀ m, m < 10 →
    (Char.ofNat (48 + m)).isDigit = true ∧ (Char.ofNat (48 + m)).toNat = 48 + m ∧
    (0 < m → Char.ofNat (48 + m) ≠ '0') := by
  decide

theorem digitsCore_head (n : Nat) (h : 0 < n) :
    ∃ c cs, natDigitsAux n n [] = c :: cs ∧ c.isDigit = true ∧ c ≠ '0' := by
  induction n using Nat.strong_induction_on with
  | _ n ih =>
    by_cases h10 : n < 10
    · have hdiv : n / 10 = 0 := by omega
      rw [digitsCore_unfold n h, hdiv]
      have hmod : n % 10 = n := by omega
      refine ⟨Char.ofNat (48 + n % 10), [], rfl, (digit_char_facts _ (by omega)).1,
        (digit_char_facts _ (by omega)).2.2 (by omega)⟩
    · obtain ⟨c, cs, heq, hdig, hne⟩ := ih (n / 10) (by omega) (by omega)
      rw [digitsCore_unfold n h, heq]
      exact ⟨c, cs ++ [Char.ofNat (48 + n % 10)], by simp, hdig, hne⟩

theorem parseDigitsAux_digit {c : Char} (hc : c.isDigit = true) (cs : List Char)
    (a : Nat) :
    parseDigitsAux (c :: cs) a = parseDigitsAux cs (a * 10 + (c.toNat - 48)) := by
  simp [parseDigitsAux, hc]

theorem parseDigitsAux_stop {cs : List Char} (h : headNotDigit cs) (a : Nat) :
    parseDigitsAux cs a = (a, cs) := by
  cases cs with
  | nil => rfl
  | cons c rest =>
    have hc : c.isDigit = false := h
    simp [parseDigitsAux, hc]

theorem parseDigitsAux_digitsCore (n : Nat) (h : 0 < n) : ∀ (tail : List Char) (a : Nat),
    parseDigitsAux (natDigitsAux n n [] ++ tail) a =
      parseDigitsAux tail (a * 10 ^ (natDigitsAux n n []).length + n) := by
  induction n using Nat.strong_induction_on with
  | _ n ih =>
    intro tail a
    by_cases h10 : n < 10
    · have hdiv : n / 10 = 0 := by omega
      have hmod : n % 10 = n := by omega
      rw [digitsCore_unfold n h, hdiv]
      simp only [natDigitsAux, List.nil_append, List.length_cons, List.length_nil,
        List.singleton_append]
      rw [parseDigitsAux_digit (digit_char_facts (n % 10) (by omega)).1,
        (digit_char_facts (n % 10) (by omega)).2.1]
      have : a * 10 + (48 + n % 10 - 48) = a * 10 ^ (0 + 1) + n := by
        rw [pow_succ, pow_zero]
        omega
      rw [this]
    · have hpos : 0 < n / 10 := by omega
      rw [digitsCore_unfold n h, List.append_assoc, ih (n / 10) (by omega) hpos,
        List.singleton_append,
        parseDigitsAux_digit (digit_char_facts (n % 10) (by omega)).1,
        (digit_char_facts (n % 10) (by omega)).2.1]
      have hlen : (natDigitsAux (n / 10) (n / 10) [] ++ [Char.ofNat (48 + n % 10)]).length =
          (natDigitsAux (n / 10) (n / 10) []).length + 1 := by simp
      rw [hlen, pow_succ]
      have hdm := Nat.div_add_mod n 10
      have : (a * 10 ^ (natDigitsAux (n / 10) (n / 10) []).length + n / 10) * 10 +
          (48 + n % 10 - 48) =
          a * (10 ^ (natDigitsAux (n / 10) (n / 10) []).length * 10) + n := by
        have hx : 48 + n % 10 - 48 = n % 10 := by omega
        rw [hx, Nat.add_mul, Nat.mul_assoc]
        omega
      rw [this]

theorem natDigits_shape (n : Nat) :
    ∃ c cs, natDigits n = c :: cs ∧ c.isDigit = true := by
  by_cases h : n = 0
  · subst h
    exact ⟨'0', [], rfl, by decide⟩
  · obtain ⟨c, cs, heq, hdig, _⟩ := digitsCore_head n (by omega)
    rw [natDigits, if_neg h]
    exact ⟨c, cs, heq, hdig⟩

theorem parseUNumber_natDigits (n : Nat) (tail : List Char) (h : headNotDigit tail) :
    parseUNumber (natDigits n ++ tail) = some (n, tail) := by
  by_cases h0 : n = 0
  · subst h0
    simp [natDigits, parseUNumber]
  · obtain ⟨c, cs, heq, hdig, hne⟩ := digitsCore_head n (by omega)
    have hD := parseDigitsAux_digitsCore n (by omega) tail 0
    rw [heq, List.cons_append, parseDigitsAux_digit hdig, parseDigitsAux_stop h] at hD
    simp only [Nat.zero_mul, Nat.zero_add] at hD
    rw [natDigits, if_neg h0, heq, List.cons_append, parseUNumber,
      if_neg hne, if_pos hdig, hD]

theorem digit_ne_minus {c : Char} (h : c.isDigit = true) : c ≠ '-' := by
  intro hc
  rw [hc] at h
  exact absurd h (by decide)

theorem parseSignedInt_encInt (i : Int) (tail : List Char) (h : headNotDigit tail) :
    parseSignedInt (encInt i ++ tail) = some (i, tail) := by
  by_cases hneg : i < 0
  · rw [encInt, if_pos hneg, List.cons_append, parseSignedInt, if_pos rfl,
      parseUNumber_natDigits i.natAbs tail h]
    simp only [Option.map_some']
    have : -(i.natAbs : Int) = i := by omega
    rw [this]
  · obtain ⟨c, cs, heq, hdig⟩ := natDigits_shape i.natAbs
    rw [encInt, if_neg hneg, heq, List.cons_append, parseSignedInt,
      if_neg (digit_ne_minus hdig), ← List.cons_append, ← heq,
      parseUNumber_natDigits i.natAbs tail h]
    simp only [Option.map_some']
    have : (i.natAbs : Int) = i := by omega
    rw [this]

/-- The next input character (if any) can extend neither the digit run
nor the number literal (no digit, no fraction dot, no exponent mark). -/
def numBoundary : List Char → Prop
  | [] => True
  | c :: _ => c.isDigit = false ∧ c ≠ '.' ∧ c ≠ 'e' ∧ c ≠ 'E'

theorem numBoundary_cons {c : Char} (h1 : c.isDigit = false) (h2 : c ≠ '.')
    (h3 : c ≠ 'e') (h4 : c ≠ 'E') (zs : List Char) : numBoundary (c :: zs) :=
  ⟨h1, h2, h3, h4⟩

theorem parseFrac_none {cs : List Char} (h : numBoundary cs) : parseFrac cs = none := by
  cases cs with
  | nil => rfl
  | cons c zs =>
    cases zs with
    | nil => rfl
    | cons z zs' =>
      simp only [parseFrac]
      exact if_neg fun hh => h.2.1 hh.1

theorem parseExp_none {cs : List Char} (h : numBoundary cs) : parseExp cs = none := by
  cases cs with
  | nil => rfl
  | cons c zs =>
    simp only [parseExp]
    exact if_neg fun hh => hh.elim (fun h3 => h.2.2.1 h3) (fun h4 => h.2.2.2 h4)

theorem parseNumber_encInt (i : Int) (tail : List Char) (h : numBoundary tail) :
    parseNumber (encInt i ++ tail) = some (Json.num i, tail) := by
  have h1 : headNotDigit tail := by
    cases tail with
    | nil => trivial
    | cons c zs => exact h.1
  rw [parseNumber, parseSignedInt_encInt i tail h1]
  simp only [parseFrac_none h, parseExp_none h]

/-! ## String escape round trip -/

theorem uEscape_length_pos (n : Nat) : 1 ≤ (uEscape n).length := by
  rw [uEscape]
  split <;> simp

theorem escapeChar_length_pos (c : Char) : 1 ≤ (escapeChar c).length := by
  rw [escapeChar]
  repeat' split
  all_goals first
    | exact uEscape_length_pos _
    | simp

theorem decodeUEscape_bmp {n : Nat} (h1 : n < 65536)
    (h2 : ¬ (0xD800 ≤ n ∧ n ≤ 0xDBFF)) (h3 : ¬ (0xDC00 ≤ n ∧ n ≤ 0xDFFF))
    (tail : List Char) :
    decodeUEscape (hex4 n ++ tail) = some (Char.ofNat n, tail) := by
  rw [decodeUEscape, parseHex4_hex4 n h1]
  simp [h2, h3]

theorem decodeUEscape_pair {hi lo : Nat} (hh : 0xD800 ≤ hi ∧ hi ≤ 0xDBFF)
    (hl : 0xDC00 ≤ lo ∧ lo ≤ 0xDFFF) (tail : List Char) :
    decodeUEscape (hex4 hi ++ '\\' :: 'u' :: (hex4 lo ++ tail)) =
      some (Char.ofNat (0x10000 + (hi - 0xD800) * 0x400 + (lo - 0xDC00)), tail) := by
  have hlo := parseHex4_hex4 lo (by omega : lo < 65536) tail
  rw [decodeUEscape, parseHex4_hex4 hi (by omega)]
  simp [hh, hl, hlo]

theorem parseStringAux_close (f : Nat) (acc tail : List Char) :
    parseStringAux (f + 1) acc ('"' :: tail) = some (acc.reverse, tail) := rfl

theorem parseStringAux_esc (f : Nat) (acc tail : List Char) (e d : Char)
    (h : (e, d) ∈ [('"', '"'), ('\\', '\\'), ('/', '/'), ('b', '\x08'), ('f', '\x0c'),
      ('n', '\n'), ('r', '\r'), ('t', '\t')]) :
    parseStringAux (f + 1) acc ('\\' :: e :: tail) = parseStringAux f (d :: acc) tail := by
  fin_cases h <;> rfl

theorem parseStringAux_step_u (f : Nat) (acc r2 : List Char) :
    parseStringAux (f + 1) acc ('\\' :: 'u' :: r2) =
      match decodeUEscape r2 with
      | none => none
      | some (ch, r1) => parseStringAux f (ch :: acc) r1 := rfl

theorem parseStringAux_raw (f : Nat) (acc tail : List Char) {c : Char}
    (h1 : ¬ c = '"') (h2 : ¬ c = '\\') (h3 : ¬ c.toNat < 32) :
    parseStringAux (f + 1) acc (c :: tail) = parseStringAux f (c :: acc) tail := by
  rw [parseStringAux.eq_def]
  simp [h1, h2, h3]

theorem parseStringAux_escapeChars (cs : List Char) :
    ∀ (fuel : Nat) (acc rest : List Char), cs.length < fuel →
    parseStringAux fuel acc (escapeChars cs ++ '"' :: rest) =
      some (acc.reverse ++ cs, rest) := by
  induction cs with
  | nil =>
    intro fuel acc rest hf
    obtain ⟨f, rfl⟩ : ∃ f, fuel = f + 1 := ⟨fuel - 1, by omega⟩
    rw [escapeChars, List.nil_append, parseStringAux_close]
    simp
  | cons c cs ih =>
    intro fuel acc rest hf
    obtain ⟨f, rfl⟩ : ∃ f, fuel = f + 1 := ⟨fuel - 1, by omega⟩
    have hf' : cs.length < f := by
      simpa using Nat.lt_of_succ_lt_succ (by simpa [List.length_cons] using hf)
    rw [escapeChars, List.append_assoc]
    by_cases h1 : c = '"'
    · subst h1
      rw [show escapeChar '"' = ['\\', '"'] from rfl]
      rw [show (['\\', '"'] : List Char) ++ (escapeChars cs ++ '"' :: rest) =
        '\\' :: '"' :: (escapeChars cs ++ '"' :: rest) from rfl]
      rw [parseStringAux_esc f acc _ '"' '"' (by simp), ih f _ rest hf']
      simp
    · by_cases h2 : c = '\\'
      · subst h2
        rw [show escapeChar '\\' = ['\\', '\\'] from rfl]
        rw [show (['\\', '\\'] : List Char) ++ (escapeChars cs ++ '"' :: rest) =
          '\\' :: '\\' :: (escapeChars cs ++ '"' :: rest) from rfl]
        rw [parseStringAux_esc f acc _ '\\' '\\' (by simp), ih f _ rest hf']
        simp
      · by_cases h3 : c = '\x08'
        · subst h3
          rw [show escapeChar '\x08' = ['\\', 'b'] from rfl]
          rw [show (['\\', 'b'] : List Char) ++ (escapeChars cs ++ '"' :: rest) =
            '\\' :: 'b' :: (escapeChars cs ++ '"' :: rest) from rfl]
          rw [parseStringAux_esc f acc _ 'b' '\x08' (by simp), ih f _ rest hf']
          simp
        · by_cases h4 : c = '\x0c'
          · subst h4
            rw [show escapeChar '\x0c' = ['\\', 'f'] from rfl]
            rw [show (['\\', 'f'] : List Char) ++ (escapeChars cs ++ '"' :: rest) =
              '\\' :: 'f' :: (escapeChars cs ++ '"' :: rest) from rfl]
            rw [parseStringAux_esc f acc _ 'f' '\x0c' (by simp), ih f _ rest hf']
            simp
          · by_cases h5 : c = '\n'
            · subst h5
              rw [show escapeChar '\n' = ['\\', 'n'] from rfl]
              rw [show (['\\', 'n'] : List Char) ++ (escapeChars cs ++ '"' :: rest) =
                '\\' :: 'n' :: (escapeChars cs ++ '"' :: rest) from rfl]
              rw [parseStringAux_esc f acc _ 'n' '\n' (by simp), ih f _ rest hf']
              simp
            · by_cases h6 : c = '\r'
              · subst h6
                rw [show escapeChar '\r' = ['\\', 'r'] from rfl]
                rw [show (['\\', 'r'] : List Char) ++ (escapeChars cs ++ '"' :: rest) =
                  '\\' :: 'r' :: (escapeChars cs ++ '"' :: rest) from rfl]
                rw [parseStringAux_esc f acc _ 'r' '\r' (by simp), ih f _ rest hf']
                simp
              · by_cases h7 : c = '\t'
                · subst h7
                  rw [show escapeChar '\t' = ['\\', 't'] from rfl]
                  rw [show (['\\', 't'] : List Char) ++ (escapeChars cs ++ '"' :: rest) =
                    '\\' :: 't' :: (escapeChars cs ++ '"' :: rest) from rfl]
                  rw [parseStringAux_esc f acc _ 't' '\t' (by simp), ih f _ rest hf']
                  simp
                · have hvalid := char_valid_nat c
                  by_cases h8 : c.toNat < 32
                  · rw [escapeChar, if_neg h1, if_neg h2, if_neg h3, if_neg h4,
                      if_neg h5, if_neg h6, if_neg h7, if_pos h8, uEscape,
                      if_pos (show c.toNat < 65536 by omega)]
                    rw [show ('\\' :: 'u' :: hex4 c.toNat) ++ (escapeChars cs ++ '"' :: rest) =
                      '\\' :: 'u' :: (hex4 c.toNat ++ (escapeChars cs ++ '"' :: rest)) by simp]
                    rw [parseStringAux_step_u,
                      decodeUEscape_bmp (by omega) (by omega) (by omega)]
                    simp only []
                    rw [Char.ofNat_toNat, ih f _ rest hf']
                    simp
                  · by_cases h9 : 126 < c.toNat
                    · rw [escapeChar, if_neg h1, if_neg h2, if_neg h3, if_neg h4,
                        if_neg h5, if_neg h6, if_neg h7, if_neg h8, if_pos h9, uEscape]
                      by_cases hbmp : c.toNat < 65536
                      · rw [if_pos hbmp]
                        rw [show ('\\' :: 'u' :: hex4 c.toNat) ++ (escapeChars cs ++ '"' :: rest) =
                          '\\' :: 'u' :: (hex4 c.toNat ++ (escapeChars cs ++ '"' :: rest)) by simp]
                        rw [parseStringAux_step_u,
                          decodeUEscape_bmp hbmp (by omega) (by omega)]
                        simp only []
                        rw [Char.ofNat_toNat, ih f _ rest hf']
                        simp
                      · rw [if_neg hbmp]
                        have hlt : c.toNat < 0x110000 := by omega
                        rw [show (('\\' :: 'u' :: hex4 (0xD800 + (c.toNat - 0x10000) / 0x400)) ++
                            ('\\' :: 'u' :: hex4 (0xDC00 + (c.toNat - 0x10000) % 0x400))) ++
                            (escapeChars cs ++ '"' :: rest) =
                          '\\' :: 'u' :: (hex4 (0xD800 + (c.toNat - 0x10000) / 0x400) ++
                            '\\' :: 'u' :: (hex4 (0xDC00 + (c.toNat - 0x10000) % 0x400) ++
                              (escapeChars cs ++ '"' :: rest) )) by simp]
                        rw [parseStringAux_step_u,
                          decodeUEscape_pair ⟨by omega, by omega⟩ ⟨by omega, by omega⟩]
                        simp only []
                        have hcomb : 0x10000 +
                            (0xD800 + (c.toNat - 0x10000) / 0x400 - 0xD800) * 0x400 +
                            (0xDC00 + (c.toNat - 0x10000) % 0x400 - 0xDC00) = c.toNat := by
                          omega
                        rw [hcomb, Char.ofNat_toNat, ih f _ rest hf']
                        simp
                    · rw [escapeChar, if_neg h1, if_neg h2, if_neg h3, if_neg h4,
                        if_neg h5, if_neg h6, if_neg h7, if_neg h8, if_neg h9,
                        List.singleton_append,
                        parseStringAux_raw f _ _ h1 h2 h8, ih f _ rest hf']
                      simp

/-! ## Scanner round trip: numbers, arrays, objects -/

theorem skipWs_not_ws {c : Char} (h : isJsonWs c = false) (cs : List Char) :
    skipWs (c :: cs) = c :: cs := by
  rw [skipWs, h]
  simp

theorem skipWs_space (cs : List Char) : skipWs (' ' :: cs) = skipWs cs := rfl

theorem headNotDigit_cons {c : Char} (h : c.isDigit = false) (zs : List Char) :
    headNotDigit (c :: zs) := h

theorem string_eta (s : String) : String.mk s.data = s := rfl

theorem data_mk (l : List Char) : (String.mk l).data = l := rfl

theorem parseStringAux_call (key zs : List Char) :
    parseStringAux ((escapeChars key ++ '"' :: zs).length + 1) []
      (escapeChars key ++ '"' :: zs) = some (key, zs) := by
  have hlen : key.length < (escapeChars key ++ '"' :: zs).length + 1 := by
    have h1 : key.length ≤ (escapeChars key).length := by
      induction key with
      | nil => simp [escapeChars]
      | cons c rest ih =>
        rw [escapeChars, List.length_append, List.length_cons]
        have := escapeChar_length_pos c
        omega
    rw [List.length_append, List.length_cons]
    omega
  rw [parseStringAux_escapeChars key _ [] zs hlen]
  simp

theorem encInt_head (i : Int) :
    ∃ c cs, encInt i = c :: cs ∧ (c = '-' ∨ c.isDigit = true) := by
  by_cases h : i < 0
  · exact ⟨'-', natDigits i.natAbs, by rw [encInt, if_pos h], Or.inl rfl⟩
  · obtain ⟨c, cs, heq, hdig⟩ := natDigits_shape i.natAbs
    exact ⟨c, cs, by rw [encInt, if_neg h, heq], Or.inr hdig⟩

theorem numHead_facts {c : Char} (h : c = '-' ∨ c.isDigit = true) :
    (¬ c = '{') ∧ (¬ c = '[') ∧ (¬ c = '"') ∧ (¬ c = 't') ∧ (¬ c = 'f') ∧
    (¬ c = 'n') ∧ isJsonWs c = false ∧ (¬ c = ']') ∧ (¬ c = '}') := by
  rcases h with h | h
  · subst h
    refine ⟨by decide, by decide, by decide, by decide, by decide, by decide,
      by decide, by decide, by decide⟩
  · have hb : 48 ≤ c.val ∧ c.val ≤ 57 := by simpa [Char.isDigit] using h
    have hn : 48 ≤ c.toNat ∧ c.toNat ≤ 57 :=
      ⟨UInt32.le_toNat_of_le (by norm_num) hb.1,
        UInt32.toNat_le_of_le (by norm_num) hb.2⟩
    refine ⟨?_, ?_, ?_, ?_, ?_, ?_, ?_, ?_, ?_⟩
    all_goals first
      | (intro hc; rw [hc] at hn; revert hn; decide)
      | (rw [isJsonWs]
         have h1 : ¬ c = ' ' := fun hc => by rw [hc] at hn; revert hn; decide
         have h2 : ¬ c = '\t' := fun hc => by rw [hc] at hn; revert hn; decide
         have h3 : ¬ c = '\n' := fun hc => by rw [hc] at hn; revert hn; decide
         have h4 : ¬ c = '\r' := fun hc => by rw [hc] at hn; revert hn; decide
         simp [h1, h2, h3, h4])

theorem parseP_val_cons (g : Nat) (c : Char) (rest : List Char) :
    parseP (g + 1) PMode.val (c :: rest) =
      (if c = '{' then
        match skipWs rest with
        | [] => none
        | d :: r2 =>
          if d = '}' then some (Json.obj [], r2) else parseP g (PMode.members []) (d :: r2)
      else if c = '[' then
        match skipWs rest with
        | [] => none
        | d :: r2 =>
          if d = ']' then some (Json.arr [], r2) else parseP g (PMode.elems []) (d :: r2)
      else if c = '"' then
        (parseStringAux (rest.length + 1) [] rest).map fun p => (Json.str (String.mk p.1), p.2)
      else if c = 't' then
        match rest with
        | 'r' :: 'u' :: 'e' :: r => some (Json.bool true, r)
        | _ => none
      else if c = 'f' then
        match rest with
        | 'a' :: 'l' :: 's' :: 'e' :: r => some (Json.bool false, r)
        | _ => none
      else if c = 'n' then
        match rest with
        | 'u' :: 'l' :: 'l' :: r => some (Json.null, r)
        | _ => none
      else
        match parseNumber (c :: rest) with
        | some jr => some jr
        | none =>
          if c = 'N' then
            match rest with
            | 'a' :: 'N' :: r => some (Json.floatStr "NaN", r)
            | _ => none
          else if c = 'I' then
            match rest with
            | 'n' :: 'f' :: 'i' :: 'n' :: 'i' :: 't' :: 'y' :: r =>
              some (Json.floatStr "Infinity", r)
            | _ => none
          else if c = '-' then
            match rest with
            | 'I' :: 'n' :: 'f' :: 'i' :: 'n' :: 'i' :: 't' :: 'y' :: r =>
              some (Json.floatStr "-Infinity", r)
            | _ => none
          else none) := rfl

theorem parseP_elems_eq (g : Nat) (acc : List Json) (cs : List Char) :
    parseP (g + 1) (PMode.elems acc) cs =
      (match parseP g PMode.val cs with
      | none => none
      | some (v, r) =>
        match skipWs r with
        | [] => none
        | d :: r2 =>
          if d = ',' then parseP g (PMode.elems (v :: acc)) (skipWs r2)
          else if d = ']' then some (Json.arr (v :: acc).reverse, r2)
          else none) := rfl

theorem parseP_members_cons (g : Nat) (acc : List (String × Json)) (c : Char)
    (rest : List Char) :
    parseP (g + 1) (PMode.members acc) (c :: rest) =
      (if c = '"' then
        match parseStringAux (rest.length + 1) [] rest with
        | none => none
        | some (k, r1) =>
          match skipWs r1 with
          | [] => none
          | d :: r2 =>
            if d = ':' then
              match parseP g PMode.val (skipWs r2) with
              | none => none
              | some (v, r3) =>
                match skipWs r3 with
                | [] => none
                | d2 :: r4 =>
                  if d2 = ',' then
                    parseP g (PMode.members (pyDictInsert acc (String.mk k) v)) (skipWs r4)
                  else if d2 = '}' then
                    some (Json.obj (pyDictInsert acc (String.mk k) v), r4)
                  else none
            else none
      else none) := rfl

theorem parsePVal_int (i : Int) (f : Nat) (tail : List Char) (hf : 0 < f)
    (ht : numBoundary tail) :
    parseP f PMode.val (encInt i ++ tail) = some (Json.num i, tail) := by
  obtain ⟨g, rfl⟩ : ∃ g, f = g + 1 := ⟨f - 1, by omega⟩
  obtain ⟨c, cs, heq, hc⟩ := encInt_head i
  obtain ⟨n1, n2, n3, n4, n5, n6, _, _, _⟩ := numHead_facts hc
  have hnum : parseNumber (c :: (cs ++ tail)) = some (Json.num i, tail) := by
    rw [← List.cons_append, ← heq]
    exact parseNumber_encInt i tail ht
  rw [heq, List.cons_append, parseP_val_cons, if_neg n1, if_neg n2, if_neg n3,
    if_neg n4, if_neg n5, if_neg n6]
  simp only [hnum]

theorem joinSep_head (sep : List Char) (a : List Char) (bs : List (List Char)) :
    ∃ t, joinSep sep (a :: bs) = a ++ t := by
  cases bs with
  | nil => exact ⟨[], by simp [joinSep]⟩
  | cons b bs => exact ⟨sep ++ joinSep sep (b :: bs), by simp [joinSep]⟩

theorem parsePElems_ints (l : List Int) : ∀ (f : Nat) (acc : List Json) (r : List Char),
    l ≠ [] → l.length < f →
    parseP f (PMode.elems acc) (joinSep [',', ' '] (l.map encInt) ++ ']' :: r) =
      some (Json.arr (acc.reverse ++ l.map Json.num), r) := by
  induction l with
  | nil => intro f acc r h; exact absurd rfl h
  | cons x xs ih =>
    intro f acc r _ hf
    have hlen : xs.length + 1 < f := by simpa [List.length_cons] using hf
    obtain ⟨g, rfl⟩ : ∃ g, f = g + 1 := ⟨f - 1, by omega⟩
    rw [parseP_elems_eq]
    cases xs with
    | nil =>
      simp only [List.map_cons, List.map_nil, joinSep]
      rw [parsePVal_int x g (']' :: r) (by omega) (numBoundary_cons (by decide) (by decide) (by decide) (by decide) r)]
      have h1 : skipWs (']' :: r) = ']' :: r := skipWs_not_ws (by decide) r
      simp only [h1]
      rw [if_neg (by decide : ¬ (']' : Char) = ',')]
      simp
    | cons y ys =>
      simp only [List.map_cons, joinSep]
      have hsh : (encInt x ++ [',', ' '] ++
          joinSep [',', ' '] (encInt y :: ys.map encInt)) ++ ']' :: r =
          encInt x ++ (',' :: ' ' ::
            (joinSep [',', ' '] (encInt y :: ys.map encInt) ++ ']' :: r)) := by
        simp
      rw [hsh, parsePVal_int x g _ (by omega) (numBoundary_cons (by decide) (by decide) (by decide) (by decide) _)]
      have h1 : skipWs (',' :: ' ' ::
          (joinSep [',', ' '] (encInt y :: ys.map encInt) ++ ']' :: r)) =
          ',' :: ' ' :: (joinSep [',', ' '] (encInt y :: ys.map encInt) ++ ']' :: r) :=
        skipWs_not_ws (by decide) _
      simp only [h1]
      rw [if_pos trivial, skipWs_space]
      obtain ⟨t, ht⟩ := joinSep_head [',', ' '] (encInt y) (ys.map encInt)
      obtain ⟨c, cs, heq, hcy⟩ := encInt_head y
      have hws : isJsonWs c = false := (numHead_facts hcy).2.2.2.2.2.2.1
      have h2 : skipWs (joinSep [',', ' '] (encInt y :: ys.map encInt) ++ ']' :: r) =
          joinSep [',', ' '] (encInt y :: ys.map encInt) ++ ']' :: r := by
        rw [ht, heq]
        rw [show ((c :: cs) ++ t) ++ ']' :: r = c :: (cs ++ (t ++ ']' :: r)) by simp]
        rw [skipWs_not_ws hws]
      rw [h2]
      rw [show (encInt y :: ys.map encInt) = (y :: ys).map encInt from rfl]
      rw [ih g (Json.num x :: acc) r (by simp)
        (by simp only [List.length_cons]; simp only [List.length_cons] at hlen; omega)]
      simp

theorem parsePVal_intArr (l : List Int) (f : Nat) (r : List Char)
    (hf : l.length + 1 < f) :
    parseP f PMode.val (encPostings l ++ r) = some (Json.arr (l.map Json.num), r) := by
  obtain ⟨g, rfl⟩ : ∃ g, f = g + 1 := ⟨f - 1, by omega⟩
  rw [encPostings]
  rw [show ('[' :: joinSep [',', ' '] (l.map encInt) ++ [']']) ++ r =
    '[' :: (joinSep [',', ' '] (l.map encInt) ++ ']' :: r) by simp]
  rw [parseP_val_cons, if_pos rfl]
  cases l with
  | nil =>
    simp only [List.map_nil, joinSep, List.nil_append]
    have h1 : skipWs (']' :: r) = ']' :: r := skipWs_not_ws (by decide) r
    simp only [h1]
    simp
  | cons x xs =>
    obtain ⟨t, ht⟩ := joinSep_head [',', ' '] (encInt x) (xs.map encInt)
    obtain ⟨c, cs, heq, hcx⟩ := encInt_head x
    obtain ⟨_, n2, _, _, _, _, hws, hrb, _⟩ := numHead_facts hcx
    simp only [List.map_cons]
    have h2 : skipWs (joinSep [',', ' '] (encInt x :: xs.map encInt) ++ ']' :: r) =
        joinSep [',', ' '] (encInt x :: xs.map encInt) ++ ']' :: r := by
      rw [ht, heq]
      rw [show ((c :: cs) ++ t) ++ ']' :: r = c :: (cs ++ (t ++ ']' :: r)) by simp]
      rw [skipWs_not_ws hws]
    rw [h2]
    have h3 : joinSep [',', ' '] (encInt x :: xs.map encInt) ++ ']' :: r =
        c :: (cs ++ (t ++ ']' :: r)) := by
      rw [ht, heq]
      simp
    rw [h3]
    simp only []
    rw [if_neg hrb, ← h3]
    rw [show (encInt x :: xs.map encInt) = (x :: xs).map encInt from rfl]
    rw [parsePElems_ints (x :: xs) g [] r (by simp)
      (by simp only [List.length_cons] at hf ⊢; omega)]
    simp

theorem containsKey_eq_false_of_not_mem {α : Type} {d : List (String × α)} {k : String}
    (h : k ∉ d.map Prod.fst) : containsKey d k = false := by
  induction d with
  | nil => rfl
  | cons p rest ih =>
    simp only [List.map_cons, List.mem_cons] at h
    push_neg at h
    obtain ⟨k', v⟩ := p
    simp only [containsKey, Bool.or_eq_false_iff]
    exact ⟨by simpa using fun hh : k' = k => h.1 hh.symm, ih h.2⟩

/-- Fuel needed by the object-member loop: one unit per member plus one
per posting-list element (plus slack). -/
def entriesFuel : List (String × List Int) → Nat
  | [] => 0
  | p :: rest => p.2.length + 2 + entriesFuel rest

theorem parsePMembers_step (g : Nat) (acc : List (String × Json))
    (p : String × List Int) (z : List Char) (hfp : p.2.length + 1 < g) :
    parseP (g + 1) (PMode.members acc) (encEntry p ++ z) =
      (match skipWs z with
      | [] => none
      | d2 :: r4 =>
        if d2 = ',' then
          parseP g (PMode.members (pyDictInsert acc p.1 (Json.arr (p.2.map Json.num))))
            (skipWs r4)
        else if d2 = '}' then
          some (Json.obj (pyDictInsert acc p.1 (Json.arr (p.2.map Json.num))), r4)
        else none) := by
  rw [show encEntry p ++ z = '"' :: (escapeChars p.1.data ++
    '"' :: (':' :: ' ' :: (encPostings p.2 ++ z))) by rw [encEntry, encString]; simp]
  rw [parseP_members_cons, if_pos rfl]
  have hstr := parseStringAux_call p.1.data (':' :: ' ' :: (encPostings p.2 ++ z))
  simp only [hstr]
  have hcol : skipWs (':' :: ' ' :: (encPostings p.2 ++ z)) =
      ':' :: ' ' :: (encPostings p.2 ++ z) := skipWs_not_ws (by decide) _
  simp only [hcol]
  rw [if_pos trivial, skipWs_space]
  have hbr : skipWs (encPostings p.2 ++ z) = encPostings p.2 ++ z := by
    rw [encPostings]
    rw [show ('[' :: joinSep [',', ' '] (p.2.map encInt) ++ [']']) ++ z =
      '[' :: (joinSep [',', ' '] (p.2.map encInt) ++ (']' :: z)) by simp]
    rw [skipWs_not_ws (by decide)]
  rw [hbr, parsePVal_intArr p.2 g z hfp]

theorem parsePMembers (ents : List (String × List Int)) :
    ∀ (f : Nat) (acc : List (String × Json)) (r : List Char),
    ents ≠ [] → entriesFuel ents < f →
    (acc.map Prod.fst ++ ents.map Prod.fst).Nodup →
    parseP f (PMode.members acc) (joinSep [',', ' '] (ents.map encEntry) ++ '}' :: r) =
      some (Json.obj (acc ++ ents.map fun p => (p.1, Json.arr (p.2.map Json.num))), r) := by
  induction ents with
  | nil => intro f acc r h; exact absurd rfl h
  | cons p ps ih =>
    intro f acc r _ hf hnd
    obtain ⟨g, rfl⟩ : ∃ g, f = g + 1 := ⟨f - 1, by omega⟩
    have hkey : p.1 ∉ acc.map Prod.fst := by
      intro hmem
      have hd := List.disjoint_of_nodup_append hnd
      exact hd hmem (by simp)
    have hins : pyDictInsert acc p.1 (Json.arr (p.2.map Json.num)) =
        acc ++ [(p.1, Json.arr (p.2.map Json.num))] :=
      pyDictInsert_of_contains_false (containsKey_eq_false_of_not_mem hkey) _
    have hfp : p.2.length + 1 < g := by
      have he : entriesFuel (p :: ps) = p.2.length + 2 + entriesFuel ps := rfl
      omega
    cases ps with
    | nil =>
      simp only [List.map_cons, List.map_nil, joinSep]
      rw [show encEntry p ++ '}' :: r = encEntry p ++ ('}' :: r) from rfl,
        parsePMembers_step g acc p ('}' :: r) hfp]
      have h1 : skipWs ('}' :: r) = '}' :: r := skipWs_not_ws (by decide) r
      simp only [h1]
      rw [if_pos trivial, hins]
      simp
    | cons q qs =>
      simp only [List.map_cons, joinSep]
      rw [show (encEntry p ++ [',', ' '] ++
          joinSep [',', ' '] (encEntry q :: qs.map encEntry)) ++ '}' :: r =
        encEntry p ++ (',' :: ' ' ::
          (joinSep [',', ' '] (encEntry q :: qs.map encEntry) ++ '}' :: r)) by simp]
      rw [parsePMembers_step g acc p _ hfp]
      have h1 : skipWs (',' :: ' ' ::
          (joinSep [',', ' '] (encEntry q :: qs.map encEntry) ++ '}' :: r)) =
          ',' :: ' ' :: (joinSep [',', ' '] (encEntry q :: qs.map encEntry) ++ '}' :: r) :=
        skipWs_not_ws (by decide) _
      simp only [h1]
      rw [if_pos trivial, skipWs_space]
      obtain ⟨t, ht⟩ := joinSep_head [',', ' '] (encEntry q) (qs.map encEntry)
      have h2 : skipWs (joinSep [',', ' '] (encEntry q :: qs.map encEntry) ++ '}' :: r) =
          joinSep [',', ' '] (encEntry q :: qs.map encEntry) ++ '}' :: r := by
        rw [ht]
        rw [show encEntry q = '"' :: (escapeChars q.1.data ++
          '"' :: (':' :: ' ' :: encPostings q.2)) by rw [encEntry, encString]; simp]
        rw [show ('"' :: (escapeChars q.1.data ++ '"' :: (':' :: ' ' :: encPostings q.2))
            ++ t) ++ '}' :: r =
          '"' :: ((escapeChars q.1.data ++ '"' :: (':' :: ' ' :: encPostings q.2)) ++
            (t ++ '}' :: r)) by simp]
        rw [skipWs_not_ws (by decide)]
      rw [h2, hins]
      rw [show (encEntry q :: qs.map encEntry) = (q :: qs).map encEntry from rfl]
      rw [ih g (acc ++ [(p.1, Json.arr (p.2.map Json.num))]) r (by simp)
        (by have he : entriesFuel (p :: (q :: qs)) =
              p.2.length + 2 + entriesFuel (q :: qs) := rfl
            omega)
        (by simpa [List.append_assoc] using hnd)]
      simp

theorem parsePVal_dump (idx : List (String × List Int)) (f : Nat) (r : List Char)
    (hnd : (idx.map Prod.fst).Nodup) (hf : entriesFuel idx + 1 < f) :
    parseP f PMode.val (dumpChars idx ++ r) = some (jsonOfIndex idx, r) := by
  obtain ⟨g, rfl⟩ : ∃ g, f = g + 1 := ⟨f - 1, by omega⟩
  rw [dumpChars]
  rw [show ('{' :: joinSep [',', ' '] (idx.map encEntry) ++ ['}']) ++ r =
    '{' :: (joinSep [',', ' '] (idx.map encEntry) ++ '}' :: r) by simp]
  rw [parseP_val_cons, if_pos rfl]
  cases idx with
  | nil =>
    simp only [List.map_nil, joinSep, List.nil_append]
    have h1 : skipWs ('}' :: r) = '}' :: r := skipWs_not_ws (by decide) r
    simp only [h1]
    simp [jsonOfIndex]
  | cons p ps =>
    obtain ⟨t, ht⟩ := joinSep_head [',', ' '] (encEntry p) (ps.map encEntry)
    simp only [List.map_cons]
    have hq : joinSep [',', ' '] (encEntry p :: ps.map encEntry) ++ '}' :: r =
        '"' :: ((escapeChars p.1.data ++ '"' :: (':' :: ' ' :: encPostings p.2)) ++
          (t ++ '}' :: r)) := by
      rw [ht, show encEntry p = '"' :: (escapeChars p.1.data ++
        '"' :: (':' :: ' ' :: encPostings p.2)) by rw [encEntry, encString]; simp]
      simp
    have h1 : skipWs (joinSep [',', ' '] (encEntry p :: ps.map encEntry) ++ '}' :: r) =
        '"' :: ((escapeChars p.1.data ++ '"' :: (':' :: ' ' :: encPostings p.2)) ++
          (t ++ '}' :: r)) := by
      rw [hq]
      exact skipWs_not_ws (by decide) _
    simp only [h1]
    rw [if_neg (by decide : ¬ ('"' : Char) = '}'), ← hq]
    rw [show (encEntry p :: ps.map encEntry) = (p :: ps).map encEntry from rfl]
    rw [parsePMembers (p :: ps) g [] r (by simp)
      (by have he : entriesFuel (p :: ps) + 1 < g + 1 := hf; omega)
      (by simpa using hnd)]
    rw [jsonOfIndex]
    simp

theorem encInt_length_pos (i : Int) : 1 ≤ (encInt i).length := by
  obtain ⟨c, cs, heq, _⟩ := encInt_head i
  rw [heq]
  simp

theorem joinSep_encInt_len (l : List Int) :
    l.length ≤ (joinSep [',', ' '] (l.map encInt)).length := by
  induction l with
  | nil => simp [joinSep]
  | cons x xs ih =>
    cases xs with
    | nil => simpa [joinSep] using encInt_length_pos x
    | cons y ys =>
      simp only [List.map_cons, joinSep, List.length_append, List.length_cons] at *
      have := encInt_length_pos x
      omega

theorem encEntry_len (p : String × List Int) : p.2.length + 4 ≤ (encEntry p).length := by
  rw [encEntry, encString, encPostings]
  simp only [List.length_append, List.length_cons]
  have := joinSep_encInt_len p.2
  omega

theorem entriesFuel_joinSep (idx : List (String × List Int)) :
    entriesFuel idx ≤ (joinSep [',', ' '] (idx.map encEntry)).length + 1 := by
  induction idx with
  | nil => simp [joinSep, entriesFuel]
  | cons p ps ih =>
    cases ps with
    | nil =>
      have := encEntry_len p
      simp only [List.map_cons, List.map_nil, joinSep, entriesFuel]
      omega
    | cons q qs =>
      have := encEntry_len p
      simp only [List.map_cons, joinSep, entriesFuel, List.length_append,
        List.length_cons] at *
      omega

theorem dump_fuel (idx : List (String × List Int)) :
    entriesFuel idx + 1 < (dumpChars idx).length + 1 := by
  rw [dumpChars]
  have := entriesFuel_joinSep idx
  simp only [List.length_cons, List.length_append]
  omega

/-- C1: the serialize/deserialize round trip — loading the file contents
written by `dump` for any index mapping (a mapping has distinct keys)
succeeds and decodes to exactly the JSON object with the same keys in
the same order, each carrying its posting list order-preservingly
(`jsonOfIndex` is injective on key set and posting lists, so key set and
every posting list are recovered identically). -/
theorem c1_serialize_deserialize_roundtrip (idx : List (String × List Int))
    (h : (idx.map Prod.fst).Nodup) :
    InvertedIndex.load (InvertedIndex.dump ⟨idx⟩) = Except.ok ⟨jsonOfIndex idx⟩ := by
  rw [InvertedIndex.dump]
  simp only [InvertedIndex.load, data_mk]
  have hsk : skipWs (dumpChars idx) = dumpChars idx := by
    rw [dumpChars]
    exact skipWs_not_ws (by decide) _
  rw [hsk]
  have hp := parsePVal_dump idx ((dumpChars idx).length + 1) [] h (dump_fuel idx)
  rw [List.append_nil] at hp
  rw [hp]
  rfl

/-- C1 witness: the round-trip theorem instantiated at a concrete index. -/
theorem c1_serialize_deserialize_roundtrip_witness :
    ((([("milk", [1, 2]), ("sugar", [2])] : List (String × List Int)).map Prod.fst).Nodup) ∧
    InvertedIndex.load (InvertedIndex.dump ⟨[("milk", [1, 2]), ("sugar", [2])]⟩) =
      Except.ok ⟨jsonOfIndex [("milk", [1, 2]), ("sugar", [2])]⟩ :=
  ⟨by decide, c1_serialize_deserialize_roundtrip _ (by decide)⟩

/-! ## C5: deserialize failure behaviour -/

/-- C5 counterexample: the claim says `load` never succeeds on a byte
stream that decodes to a structure in which some key's value is not an
array of integers; but on `{"a": "xyz"}` (a well-formed JSON object with
a bare string value) `json.load` succeeds and the constructor stores the
result without validation, so `load` silently produces an index. -/
theorem c5_counterexample :
    InvertedIndex.load "\x7b\"a\": \"xyz\"\x7d" =
      Except.ok ⟨Json.obj [("a", Json.str "xyz")]⟩ := rfl

/-- C5 amended: `load` raises a decode error on byte streams that
`json.load` cannot parse, such as the bare token `milk`, but it
performs no validation of the decoded shape: a successfully decoded
value that is not a term-to-integer-array mapping — such as a top-level
bare string, or a float — is silently wrapped into the store as
`words_ids`. -/
theorem c5_decode_behaviour_amended :
    InvertedIndex.load "milk" = Except.error "Expecting value" ∧
    InvertedIndex.load "\"abc\"" = Except.ok ⟨Json.str "abc"⟩ ∧
    InvertedIndex.load "1.5" = Except.ok ⟨Json.floatStr "1.5"⟩ := ⟨rfl, rfl, rfl⟩
